import Mathlib

/-!
Verification of the debate-explanation pipeline (QEM gradual semantics,
branch extraction, constructive/destructive explanation search).

The definitions below are a shallow embedding of the Python sources:
  * compute_initial_weights_and_graphs.py   (aggregate_votes)
  * compute_final_weights_and_graphs_QEM.py (h, calculate_energy, qem_accept,
    enrich_with_final)
  * generate_constructive_explanations.py / generate_destructive_explanations.py
    (create_restriction, apply_qem_to_restriction, the two searches)
  * identify_branches.py                    (branch extraction)
  * generate_branch_rankings.py             (determine_direction)

Python dicts are modelled as association lists (first binding wins, insertion
order preserved, duplicate insertions keep the first position, matching CPython
dict semantics); floats are modelled as rationals; `networkx.topological_sort`
is modelled by a deterministic Kahn-style sort returning `none` on a cycle
(the Python call raising `NetworkXUnfeasible`).
-/

/-- A debate node as stored in the enriched JSON: `initial_weight` plus an
optional `final_weight` (absent until propagation writes it). -/
structure NodeData where
  initial_weight : ℚ
  final_weight : Option ℚ := none
deriving DecidableEq

/-- A relation edge, keyed externally by its source id: the single successor
and the signed relation (attack `< 0`, support `> 0`, neutral `0`). -/
structure EdgeData where
  successor_id : String
  relation : ℚ
deriving DecidableEq

/-- A debate: the `nodes` and `edges` mappings of the JSON record. -/
structure Debate where
  nodes : List (String × NodeData)
  edges : List (String × EdgeData)
deriving DecidableEq

/-- `h` from compute_final_weights_and_graphs_QEM.py:
`(max(x, 0) ** 2) / (1 + max(x, 0) ** 2)`. -/
def h (x : ℚ) : ℚ := (max x 0) ^ 2 / (1 + (max x 0) ^ 2)

/-- `calculate_energy(n, sup, att, final_acc)`: sum of already-computed final
weights of `n`'s supporters minus those of its attackers, a missing entry
counting as 0 (`final_acc.get(s, 0)`). -/
def calculate_energy (n : String) (sup att : String → List String)
    (final_acc : List (String × ℚ)) : ℚ :=
  ((sup n).map (fun s => (final_acc.lookup s).getD 0)).sum -
  ((att n).map (fun a => (final_acc.lookup a).getD 0)).sum

/-- `qem_accept(n, sup, att, final_acc, w_init)`.  In the source `sup`/`att`
are dicts from a node to the list of its supporters/attackers; key absence
(`n not in sup`) is list emptiness here. -/
def qem_accept (n : String) (sup att : String → List String)
    (final_acc : List (String × ℚ)) (w_init : String → ℚ) : ℚ :=
  if sup n = [] ∧ att n = [] then w_init n
  else
    let e := calculate_energy n sup att final_acc
    let w0 := w_init n
    if 0 < e then w0 + (1 - w0) * h e else w0 - w0 * h (-e)

theorem h_nonneg (x : ℚ) : 0 ≤ h x := by
  unfold h; positivity

theorem h_lt_one (x : ℚ) : h x < 1 := by
  unfold h
  rw [div_lt_one (by positivity)]
  nlinarith [sq_nonneg (max x 0)]

/-- C4: bound preservation.  Whatever the supporter/attacker structure and the
already-accumulated final weights (hence for every value of the energy `e`),
the QEM update `qem_accept` maps an initial weight in `[0,1]` to a final
weight in `[0,1]`. -/
theorem c4_qem_bound_preservation (n : String) (sup att : String → List String)
    (final_acc : List (String × ℚ)) (w_init : String → ℚ)
    (hw0 : 0 ≤ w_init n) (hw1 : w_init n ≤ 1) :
    0 ≤ qem_accept n sup att final_acc w_init ∧
      qem_accept n sup att final_acc w_init ≤ 1 := by
  unfold qem_accept
  split
  · exact ⟨hw0, hw1⟩
  · set e := calculate_energy n sup att final_acc with he
    simp only
    split
    · have h1 := h_nonneg e
      have h2 := h_lt_one e
      constructor <;> nlinarith
    · have h1 := h_nonneg (-e)
      have h2 := h_lt_one (-e)
      constructor <;> nlinarith

/-- Witness for C4 at a concrete input: one supporter of weight 1/2,
initial weight 1/2. -/
theorem c4_qem_bound_preservation_witness :
    0 ≤ qem_accept "X" (fun _ => ["S"]) (fun _ => []) [("S", 1/2)] (fun _ => 1/2) ∧
      qem_accept "X" (fun _ => ["S"]) (fun _ => []) [("S", 1/2)] (fun _ => 1/2) ≤ 1 :=
  c4_qem_bound_preservation "X" _ _ _ _ (by norm_num) (by norm_num)

/-! ## Vote aggregation (compute_initial_weights_and_graphs.py) -/

/-- The fixed bucket values `[0.00, 0.25, 0.50, 0.75, 1.00]`. -/
def bucketValues : List ℚ := [0, 1/4, 1/2, 3/4, 1]

/-- `votes.get(str(i), 0)`: the vote count of bucket `i`. -/
def countOf (votes : List (String × Nat)) (i : Nat) : Nat :=
  (votes.lookup (toString i)).getD 0

/-- Total number of votes over buckets 0..4. -/
def totalVotes (votes : List (String × Nat)) : Nat :=
  ((List.range 5).map (countOf votes)).sum

/-- `aggregate_votes(votes, neutral=0.5)`: the neutral default 0.5 with no
votes, otherwise the count-weighted average of the bucket values.  The single
call site uses the default `neutral = 0.5`, hardcoded here. -/
def aggregate_votes (votes : List (String × Nat)) : ℚ :=
  let counts := (List.range 5).map (countOf votes)
  let total := counts.sum
  if total = 0 then 1/2
  else (List.zipWith (fun (c : Nat) (w : ℚ) => (c : ℚ) * w) counts bucketValues).sum
        / (total : ℚ)

/-- The value of bucket `i` (matches `bucketValues`). -/
def bucketValue : Fin 5 → ℚ
  | 0 => 0
  | 1 => 1/4
  | 2 => 1/2
  | 3 => 3/4
  | 4 => 1

/-- C8: vote aggregation.  Zero total votes gives exactly 1/2; all votes in a
single bucket gives exactly that bucket's value; in general the result is the
count-weighted average of the bucket values and lies in `[0,1]`. -/
theorem c8_vote_aggregation (votes : List (String × Nat)) :
    (totalVotes votes = 0 → aggregate_votes votes = 1/2) ∧
    (∀ i : Fin 5, 0 < countOf votes i.val →
      (∀ j : Fin 5, j ≠ i → countOf votes j.val = 0) →
      aggregate_votes votes = bucketValue i) ∧
    (totalVotes votes ≠ 0 →
      aggregate_votes votes * (totalVotes votes : ℚ) =
        (countOf votes 0 : ℚ) * 0 + (countOf votes 1 : ℚ) * (1/4) +
        (countOf votes 2 : ℚ) * (1/2) + (countOf votes 3 : ℚ) * (3/4) +
        (countOf votes 4 : ℚ) * 1) ∧
    (0 ≤ aggregate_votes votes ∧ aggregate_votes votes ≤ 1) := by
  have htot : totalVotes votes =
      countOf votes 0 + (countOf votes 1 + (countOf votes 2 +
        (countOf votes 3 + (countOf votes 4 + 0)))) := rfl
  have hagg : aggregate_votes votes =
      if countOf votes 0 + (countOf votes 1 + (countOf votes 2 +
            (countOf votes 3 + (countOf votes 4 + 0)))) = 0 then 1/2
      else ((countOf votes 0 : ℚ) * 0 + ((countOf votes 1 : ℚ) * (1/4) +
              ((countOf votes 2 : ℚ) * (1/2) + ((countOf votes 3 : ℚ) * (3/4) +
              ((countOf votes 4 : ℚ) * 1 + 0)))))
            / ((countOf votes 0 + (countOf votes 1 + (countOf votes 2 +
                (countOf votes 3 + (countOf votes 4 + 0)))) : ℕ) : ℚ) := rfl
  refine ⟨?_, ?_, ?_, ?_⟩
  · intro hz
    rw [htot] at hz
    rw [hagg, if_pos hz]
  · intro i hpos hz
    fin_cases i
    · have e1 : countOf votes 1 = 0 := hz 1 (by decide)
      have e2 : countOf votes 2 = 0 := hz 2 (by decide)
      have e3 : countOf votes 3 = 0 := hz 3 (by decide)
      have e4 : countOf votes 4 = 0 := hz 4 (by decide)
      have hp : 0 < countOf votes 0 := hpos
      rw [hagg, e1, e2, e3, e4, if_neg (by omega)]
      show _ = (0 : ℚ)
      push_cast
      simp
    · have e0 : countOf votes 0 = 0 := hz 0 (by decide)
      have e2 : countOf votes 2 = 0 := hz 2 (by decide)
      have e3 : countOf votes 3 = 0 := hz 3 (by decide)
      have e4 : countOf votes 4 = 0 := hz 4 (by decide)
      have hp : 0 < countOf votes 1 := hpos
      have hne : ((countOf votes 1 : ℚ)) ≠ 0 := by
        exact_mod_cast Nat.pos_iff_ne_zero.mp hp
      rw [hagg, e0, e2, e3, e4, if_neg (by omega)]
      show _ = (1/4 : ℚ)
      push_cast
      field_simp
      ring
    · have e0 : countOf votes 0 = 0 := hz 0 (by decide)
      have e1 : countOf votes 1 = 0 := hz 1 (by decide)
      have e3 : countOf votes 3 = 0 := hz 3 (by decide)
      have e4 : countOf votes 4 = 0 := hz 4 (by decide)
      have hp : 0 < countOf votes 2 := hpos
      have hne : ((countOf votes 2 : ℚ)) ≠ 0 := by
        exact_mod_cast Nat.pos_iff_ne_zero.mp hp
      rw [hagg, e0, e1, e3, e4, if_neg (by omega)]
      show _ = (1/2 : ℚ)
      push_cast
      field_simp
      ring
    · have e0 : countOf votes 0 = 0 := hz 0 (by decide)
      have e1 : countOf votes 1 = 0 := hz 1 (by decide)
      have e2 : countOf votes 2 = 0 := hz 2 (by decide)
      have e4 : countOf votes 4 = 0 := hz 4 (by decide)
      have hp : 0 < countOf votes 3 := hpos
      have hne : ((countOf votes 3 : ℚ)) ≠ 0 := by
        exact_mod_cast Nat.pos_iff_ne_zero.mp hp
      rw [hagg, e0, e1, e2, e4, if_neg (by omega)]
      show _ = (3/4 : ℚ)
      push_cast
      field_simp
      ring
    · have e0 : countOf votes 0 = 0 := hz 0 (by decide)
      have e1 : countOf votes 1 = 0 := hz 1 (by decide)
      have e2 : countOf votes 2 = 0 := hz 2 (by decide)
      have e3 : countOf votes 3 = 0 := hz 3 (by decide)
      have hp : 0 < countOf votes 4 := hpos
      have hne : ((countOf votes 4 : ℚ)) ≠ 0 := by
        exact_mod_cast Nat.pos_iff_ne_zero.mp hp
      rw [hagg, e0, e1, e2, e3, if_neg (by omega)]
      show _ = (1 : ℚ)
      push_cast
      field_simp
  · intro hnz
    rw [htot] at hnz
    rw [hagg, if_neg hnz, htot]
    have hne : ((countOf votes 0 + (countOf votes 1 + (countOf votes 2 +
        (countOf votes 3 + (countOf votes 4 + 0)))) : ℕ) : ℚ) ≠ 0 := by
      exact_mod_cast hnz
    rw [div_mul_cancel₀ _ hne]
    ring
  · rw [hagg]
    split
    · norm_num
    · rename_i hnz
      have hpos : (0:ℚ) < ((countOf votes 0 + (countOf votes 1 + (countOf votes 2 +
          (countOf votes 3 + (countOf votes 4 + 0)))) : ℕ) : ℚ) := by
        exact_mod_cast Nat.pos_iff_ne_zero.mpr hnz
      have hle : ((countOf votes 0 : ℚ) * 0 + ((countOf votes 1 : ℚ) * (1/4) +
          ((countOf votes 2 : ℚ) * (1/2) + ((countOf votes 3 : ℚ) * (3/4) +
          ((countOf votes 4 : ℚ) * 1 + 0))))) ≤
          ((countOf votes 0 + (countOf votes 1 + (countOf votes 2 +
            (countOf votes 3 + (countOf votes 4 + 0)))) : ℕ) : ℚ) := by
        push_cast
        nlinarith [Nat.cast_nonneg (α := ℚ) (countOf votes 0),
          Nat.cast_nonneg (α := ℚ) (countOf votes 1),
          Nat.cast_nonneg (α := ℚ) (countOf votes 2),
          Nat.cast_nonneg (α := ℚ) (countOf votes 3),
          Nat.cast_nonneg (α := ℚ) (countOf votes 4)]
      constructor
      · apply div_nonneg _ (le_of_lt hpos)
        positivity
      · rw [div_le_one hpos]
        exact hle

/-- Witness for C8 at concrete inputs: no votes gives 1/2, and 3 votes all in
bucket 4 give exactly 1. -/
theorem c8_vote_aggregation_witness :
    aggregate_votes [] = 1/2 ∧ aggregate_votes [("4", 3)] = 1 := by
  constructor
  · exact (c8_vote_aggregation []).1 (by decide)
  · exact (c8_vote_aggregation [("4", 3)]).2.1 4 (by decide) (by decide)

/-! ## Graph construction and topological sorting

`networkx.DiGraph` built with `G.add_edge(src, dst)` holds exactly the
edge-incident nodes, in insertion order.  `nx.topological_sort` is modelled by
a deterministic Kahn-style sort; `none` stands for the `NetworkXUnfeasible`
exception raised on a cycle. -/

/-- Deduplicate keeping the first occurrence of each element (Python dict/set
insertion-order semantics). -/
def dedupKeepFirst (l : List String) : List String :=
  l.foldl (fun acc x => if x ∈ acc then acc else acc ++ [x]) []

/-- The node list of the digraph built from the edge items: for each edge its
source then its destination, first occurrence kept. -/
def graphNodes (es : List (String × EdgeData)) : List String :=
  dedupKeepFirst (es.foldl (fun acc p => acc ++ [p.1, p.2.successor_id]) [])

/-- Kahn elimination with explicit fuel: repeatedly emit the first remaining
node with no incoming remaining edge, dropping its outgoing edges; `none` when
no such node exists while nodes remain (a cycle). -/
def topoAux : Nat → List String → List (String × EdgeData) → Option (List String)
  | 0, rem, _ => if rem.isEmpty then some [] else none
  | fuel + 1, rem, es =>
    if rem.isEmpty then some []
    else
      match rem.find? (fun x => !(es.any (fun p => p.2.successor_id == x))) with
      | none => none
      | some x =>
        match topoAux fuel (rem.erase x) (es.filter (fun p => p.1 != x)) with
        | none => none
        | some l => some (x :: l)

/-- `list(nx.topological_sort(G))` for the digraph of the edge items. -/
def topoSort (es : List (String × EdgeData)) : Option (List String) :=
  topoAux (graphNodes es).length (graphNodes es) es

/-- The supporters dict `sup`: for each node the sources of its incoming
edges with `relation > 0`, in edge order.  Key absence is list emptiness. -/
def supOf (es : List (String × EdgeData)) (n : String) : List String :=
  (es.filter (fun p => p.2.successor_id == n && decide (0 < p.2.relation))).map Prod.fst

/-- The attackers dict `att`: sources of incoming edges with `relation < 0`. -/
def attOf (es : List (String × EdgeData)) (n : String) : List String :=
  (es.filter (fun p => p.2.successor_id == n && decide (p.2.relation < 0))).map Prod.fst

/-- The initial-weight Series `w_init` read at `n`.  (pandas raises `KeyError`
for an id without a node entry; in the pipeline every propagated id has one,
and absence is given the harmless value 0 here.) -/
def wInitOf (nodes : List (String × NodeData)) (n : String) : ℚ :=
  ((nodes.lookup n).map NodeData.initial_weight).getD 0

/-- The propagation loop: `for n in topo: final_acc[n] = qem_accept(...)`. -/
def qemFold (topo : List String) (sup att : String → List String)
    (w_init : String → ℚ) : List (String × ℚ) :=
  topo.foldl (fun acc n => acc ++ [(n, qem_accept n sup att acc w_init)]) []

/-- A restricted framework: the `{'nodes': ..., 'edges': ...}` dict. -/
structure Framework where
  nodes : List (String × NodeData)
  edges : List (String × EdgeData)
deriving DecidableEq

/-- `apply_qem_to_restriction` (identical in the constructive and destructive
scripts): empty-node guard, zero-edge fast path, and on `NetworkXUnfeasible`
the silent fallback `topo = list(nodes.keys())`. -/
def apply_qem_to_restriction (fw : Framework) : List (String × ℚ) :=
  if fw.nodes.isEmpty then []
  else if fw.edges.isEmpty then fw.nodes.map (fun p => (p.1, wInitOf fw.nodes p.1))
  else
    let topo := match topoSort fw.edges with
      | some l => l
      | none => fw.nodes.map Prod.fst
    qemFold topo (supOf fw.edges) (attOf fw.edges) (wInitOf fw.nodes)

/-- The propagation core of `enrich_with_final` (full-graph propagation):
`topological_sort` raises on a cycle — no guard, no fallback — then the same
QEM loop. -/
def enrich_with_final (nodes : List (String × NodeData))
    (edges : List (String × EdgeData)) : Except String (List (String × ℚ)) :=
  match topoSort edges with
  | none => Except.error "NetworkXUnfeasible"
  | some topo => Except.ok (qemFold topo (supOf edges) (attOf edges) (wInitOf nodes))

/-- The node part of `create_restriction`: a dict comprehension over
`args_subset`, keeping ids present in the debate's nodes, first occurrence
fixing the position. -/
def restrictNodes (d : Debate) (subset : List String) : List (String × NodeData) :=
  subset.foldl (fun acc a =>
    match d.nodes.lookup a with
    | none => acc
    | some nd => if (acc.lookup a).isSome then acc else acc ++ [(a, nd)]) []

/-- `create_restriction(debate_data, args_subset)`: empty-subset guard, node
filter, and the edges whose two endpoints lie in the subset (debate edge
order preserved). -/
def create_restriction (d : Debate) (subset : List String) : Framework :=
  if subset.isEmpty then ⟨[], []⟩
  else ⟨restrictNodes d subset,
        d.edges.filter (fun p => subset.contains p.1 && subset.contains p.2.successor_id)⟩

/-! ## Lemmas about the propagation loop and the topological sort -/

theorem qemFold_foldl_keys (sup att : String → List String) (w_init : String → ℚ) :
    ∀ (topo : List String) (acc : List (String × ℚ)),
      ((topo.foldl (fun acc n => acc ++ [(n, qem_accept n sup att acc w_init)]) acc).map
        Prod.fst) = acc.map Prod.fst ++ topo := by
  intro topo
  induction topo with
  | nil => intro acc; simp
  | cons x xs ih =>
    intro acc
    simp only [List.foldl_cons]
    rw [ih]
    simp

theorem qemFold_keys (topo : List String) (sup att : String → List String)
    (w_init : String → ℚ) : (qemFold topo sup att w_init).map Prod.fst = topo := by
  simpa [qemFold] using qemFold_foldl_keys sup att w_init topo []

theorem topoAux_mem : ∀ (fuel : Nat) (rem : List String) (es : List (String × EdgeData))
    (l : List String), topoAux fuel rem es = some l → ∀ y, (y ∈ l ↔ y ∈ rem) := by
  intro fuel
  induction fuel with
  | zero =>
    intro rem es l hl y
    simp only [topoAux] at hl
    split at hl
    · rename_i hrem
      obtain rfl : ([] : List String) = l := Option.some.inj hl
      simp [List.isEmpty_iff.mp hrem]
    · exact absurd hl (by simp)
  | succ fuel ih =>
    intro rem es l hl y
    simp only [topoAux] at hl
    split at hl
    · rename_i hrem
      obtain rfl : ([] : List String) = l := Option.some.inj hl
      simp [List.isEmpty_iff.mp hrem]
    · cases hfind : rem.find? (fun x => !(es.any (fun p => p.2.successor_id == x))) with
      | none => rw [hfind] at hl; exact absurd hl (by simp)
      | some x =>
        rw [hfind] at hl
        dsimp only at hl
        have hx : x ∈ rem := List.mem_of_find?_eq_some hfind
        cases hrec : topoAux fuel (rem.erase x) (es.filter (fun p => p.1 != x)) with
        | none => rw [hrec] at hl; exact absurd hl (by simp)
        | some tl =>
          rw [hrec] at hl
          dsimp only at hl
          obtain rfl : x :: tl = l := Option.some.inj hl
          have hmem := ih (rem.erase x) _ tl hrec
          constructor
          · intro hy
            rcases List.mem_cons.mp hy with hxy | hy2
            · exact hxy ▸ hx
            · exact List.mem_of_mem_erase ((hmem y).mp hy2)
          · intro hy
            by_cases hxy : y = x
            · exact hxy ▸ List.mem_cons_self x tl
            · exact List.mem_cons_of_mem x
                ((hmem y).mpr ((List.mem_erase_of_ne hxy).mpr hy))

theorem topoSort_mem (es : List (String × EdgeData)) (l : List String) (y : String)
    (hs : topoSort es = some l) : y ∈ l ↔ y ∈ graphNodes es :=
  topoAux_mem _ _ _ _ hs y

theorem dedup_fold_mem (y : String) :
    ∀ (l acc : List String),
      (y ∈ l.foldl (fun acc x => if x ∈ acc then acc else acc ++ [x]) acc) ↔
        y ∈ acc ∨ y ∈ l := by
  intro l
  induction l with
  | nil => intro acc; simp
  | cons a l ih =>
    intro acc
    simp only [List.foldl_cons]
    rw [ih]
    by_cases hac : a ∈ acc
    · rw [if_pos hac]
      simp only [List.mem_cons]
      constructor
      · tauto
      · rintro (hy | rfl | hy) <;> tauto
    · rw [if_neg hac]
      simp only [List.mem_append, List.mem_cons, List.mem_singleton,
        List.not_mem_nil, or_false]
      tauto

theorem mem_dedupKeepFirst (y : String) (l : List String) :
    y ∈ dedupKeepFirst l ↔ y ∈ l := by
  unfold dedupKeepFirst
  rw [dedup_fold_mem]
  simp

theorem gnodes_fold_mem (y : String) :
    ∀ (es : List (String × EdgeData)) (acc : List String),
      y ∈ es.foldl (fun acc p => acc ++ [p.1, p.2.successor_id]) acc ↔
        y ∈ acc ∨ ∃ p ∈ es, y = p.1 ∨ y = p.2.successor_id := by
  intro es
  induction es with
  | nil => intro acc; simp
  | cons q es ih =>
    intro acc
    simp only [List.foldl_cons]
    rw [ih]
    constructor
    · rintro (hy | ⟨p, hp, hyp⟩)
      · rcases List.mem_append.mp hy with hy1 | hy2
        · exact Or.inl hy1
        · rcases List.mem_cons.mp hy2 with h1 | h1
          · exact Or.inr ⟨q, List.mem_cons_self q es, Or.inl h1⟩
          · have h2 : y = q.2.successor_id := by simpa using h1
            exact Or.inr ⟨q, List.mem_cons_self q es, Or.inr h2⟩
      · exact Or.inr ⟨p, List.mem_cons_of_mem q hp, hyp⟩
    · rintro (hy | ⟨p, hp, hyp⟩)
      · exact Or.inl (List.mem_append.mpr (Or.inl hy))
      · rcases List.mem_cons.mp hp with rfl | hp2
        · refine Or.inl (List.mem_append.mpr (Or.inr ?_))
          rcases hyp with h1 | h1 <;> simp [h1]
        · exact Or.inr ⟨p, hp2, hyp⟩

theorem mem_graphNodes (es : List (String × EdgeData)) (y : String) :
    y ∈ graphNodes es ↔ ∃ p ∈ es, y = p.1 ∨ y = p.2.successor_id := by
  unfold graphNodes
  rw [mem_dedupKeepFirst, gnodes_fold_mem]
  simp

/-! ## C7: the 3-node support chain -/

/-- Evaluation of the full-graph propagation on the 3-node support chain
`A supports B supports T`, all initial weights 1/2. -/
theorem chain_enrich_eval :
    enrich_with_final
        [("A", ⟨1/2, none⟩), ("B", ⟨1/2, none⟩), ("T", ⟨1/2, none⟩)]
        [("A", ⟨"B", 1⟩), ("B", ⟨"T", 1⟩)] =
      Except.ok [("A", 1/2), ("B", 3/5), ("T", 43/68)] := by
  have ht : topoSort [("A", ⟨"B", 1⟩), ("B", ⟨"T", 1⟩)] = some ["A", "B", "T"] := by
    decide
  rw [enrich_with_final, ht]
  dsimp only
  have hsB : supOf [("A", ⟨"B", 1⟩), ("B", ⟨"T", 1⟩)] "B" = ["A"] := by decide
  have haB : attOf [("A", ⟨"B", 1⟩), ("B", ⟨"T", 1⟩)] "B" = [] := by decide
  have hsT : supOf [("A", ⟨"B", 1⟩), ("B", ⟨"T", 1⟩)] "T" = ["B"] := by decide
  have haT : attOf [("A", ⟨"B", 1⟩), ("B", ⟨"T", 1⟩)] "T" = [] := by decide
  have qA : qem_accept "A" (supOf [("A", ⟨"B", 1⟩), ("B", ⟨"T", 1⟩)])
      (attOf [("A", ⟨"B", 1⟩), ("B", ⟨"T", 1⟩)]) []
      (wInitOf [("A", ⟨1/2, none⟩), ("B", ⟨1/2, none⟩), ("T", ⟨1/2, none⟩)]) = 1/2 := by
    rw [qem_accept, if_pos ⟨by decide, by decide⟩]
    rfl
  have heB : calculate_energy "B" (supOf [("A", ⟨"B", 1⟩), ("B", ⟨"T", 1⟩)])
      (attOf [("A", ⟨"B", 1⟩), ("B", ⟨"T", 1⟩)]) [("A", 1/2)] = 1/2 := by
    rw [calculate_energy, hsB, haB]
    simp [List.lookup]
  have qB : qem_accept "B" (supOf [("A", ⟨"B", 1⟩), ("B", ⟨"T", 1⟩)])
      (attOf [("A", ⟨"B", 1⟩), ("B", ⟨"T", 1⟩)]) [("A", 1/2)]
      (wInitOf [("A", ⟨1/2, none⟩), ("B", ⟨1/2, none⟩), ("T", ⟨1/2, none⟩)]) = 3/5 := by
    rw [qem_accept, if_neg (by rw [hsB]; simp)]
    simp only [heB]
    have hw : wInitOf [("A", ⟨1/2, none⟩), ("B", ⟨1/2, none⟩), ("T", ⟨1/2, none⟩)]
        "B" = 1/2 := rfl
    rw [hw, if_pos (by norm_num)]
    rw [h]
    norm_num
  have heT : calculate_energy "T" (supOf [("A", ⟨"B", 1⟩), ("B", ⟨"T", 1⟩)])
      (attOf [("A", ⟨"B", 1⟩), ("B", ⟨"T", 1⟩)]) [("A", 1/2), ("B", 3/5)] = 3/5 := by
    rw [calculate_energy, hsT, haT]
    simp [List.lookup]
  have qT : qem_accept "T" (supOf [("A", ⟨"B", 1⟩), ("B", ⟨"T", 1⟩)])
      (attOf [("A", ⟨"B", 1⟩), ("B", ⟨"T", 1⟩)]) [("A", 1/2), ("B", 3/5)]
      (wInitOf [("A", ⟨1/2, none⟩), ("B", ⟨1/2, none⟩), ("T", ⟨1/2, none⟩)]) = 43/68 := by
    rw [qem_accept, if_neg (by rw [hsT]; simp)]
    simp only [heT]
    have hw : wInitOf [("A", ⟨1/2, none⟩), ("B", ⟨1/2, none⟩), ("T", ⟨1/2, none⟩)]
        "T" = 1/2 := rfl
    rw [hw, if_pos (by norm_num)]
    rw [h]
    norm_num
  rw [qemFold]
  simp only [List.foldl_cons, List.foldl_nil, List.nil_append]
  rw [qA]
  simp only [List.singleton_append, List.cons_append, List.nil_append]
  rw [qB, qT]

/-- C7 counterexample: on the chain `A supports B supports T` with all initial
weights 1/2 propagation yields `final(A) = 1/2`, `final(B) = 3/5 = 0.6`, and
`final(T) = 1/2 + 1/2 * h(3/5) = 43/68 ≈ 0.6324`; the claimed value
`≈ 0.6596` is off by more than 1/50. -/
theorem c7_chain_value_counterexample :
    enrich_with_final
        [("A", ⟨1/2, none⟩), ("B", ⟨1/2, none⟩), ("T", ⟨1/2, none⟩)]
        [("A", ⟨"B", 1⟩), ("B", ⟨"T", 1⟩)] =
      Except.ok [("A", 1/2), ("B", 3/5), ("T", 43/68)] ∧
    (6596/10000 : ℚ) - 43/68 > 1/50 := by
  constructor
  · exact chain_enrich_eval
  · norm_num

/-- C7 amended: on the chain the propagated weights are exactly `1/2`, `3/5`
and `43/68`, and these satisfy the update formulas `final(B) = 1/2 + 1/2·h(1/2)`
and `final(T) = 1/2 + 1/2·h(3/5)` (so `final(T) ≈ 0.6324`, not `0.6596`). -/
theorem c7_chain_propagation :
    enrich_with_final
        [("A", ⟨1/2, none⟩), ("B", ⟨1/2, none⟩), ("T", ⟨1/2, none⟩)]
        [("A", ⟨"B", 1⟩), ("B", ⟨"T", 1⟩)] =
      Except.ok [("A", 1/2), ("B", 3/5), ("T", 43/68)] ∧
    (3/5 : ℚ) = 1/2 + 1/2 * h (1/2) ∧
    (43/68 : ℚ) = 1/2 + 1/2 * h (3/5) := by
  refine ⟨chain_enrich_eval, ?_, ?_⟩ <;> · rw [h]; norm_num

/-! ## C1: behaviour on cyclic edge sets -/

/-- C1 counterexample: on the 2-cycle `A attacks B attacks A` the
per-restriction propagation does not fail — it silently returns the weight
mapping `{A: 1/2, B: 2/5}` (computed in the arbitrary fallback order) even
though the topological sort reports a cycle. -/
theorem c1_cyclic_restriction_counterexample :
    apply_qem_to_restriction
        ⟨[("A", ⟨1/2, none⟩), ("B", ⟨1/2, none⟩)],
         [("A", ⟨"B", -1⟩), ("B", ⟨"A", -1⟩)]⟩ =
      [("A", 1/2), ("B", 2/5)] ∧
    topoSort [("A", ⟨"B", -1⟩), ("B", ⟨"A", -1⟩)] = none := by
  have ht : topoSort [("A", ⟨"B", -1⟩), ("B", ⟨"A", -1⟩)] = none := by decide
  refine ⟨?_, ht⟩
  rw [apply_qem_to_restriction, if_neg (by decide), if_neg (by decide)]
  rw [ht]
  dsimp only
  simp only [List.map_cons, List.map_nil]
  have hsA : supOf [("A", ⟨"B", -1⟩), ("B", ⟨"A", -1⟩)] "A" = [] := by decide
  have haA : attOf [("A", ⟨"B", -1⟩), ("B", ⟨"A", -1⟩)] "A" = ["B"] := by decide
  have hsB : supOf [("A", ⟨"B", -1⟩), ("B", ⟨"A", -1⟩)] "B" = [] := by decide
  have haB : attOf [("A", ⟨"B", -1⟩), ("B", ⟨"A", -1⟩)] "B" = ["A"] := by decide
  have heA : calculate_energy "A" (supOf [("A", ⟨"B", -1⟩), ("B", ⟨"A", -1⟩)])
      (attOf [("A", ⟨"B", -1⟩), ("B", ⟨"A", -1⟩)]) [] = 0 := by
    rw [calculate_energy, hsA, haA]
    simp [List.lookup]
  have qA : qem_accept "A" (supOf [("A", ⟨"B", -1⟩), ("B", ⟨"A", -1⟩)])
      (attOf [("A", ⟨"B", -1⟩), ("B", ⟨"A", -1⟩)]) []
      (wInitOf [("A", ⟨1/2, none⟩), ("B", ⟨1/2, none⟩)]) = 1/2 := by
    rw [qem_accept, if_neg (by simp [haA])]
    simp only [heA]
    have hw : wInitOf [("A", ⟨1/2, none⟩), ("B", ⟨1/2, none⟩)] "A" = 1/2 := rfl
    rw [hw, if_neg (by norm_num)]
    rw [h]
    norm_num
  have heB : calculate_energy "B" (supOf [("A", ⟨"B", -1⟩), ("B", ⟨"A", -1⟩)])
      (attOf [("A", ⟨"B", -1⟩), ("B", ⟨"A", -1⟩)]) [("A", 1/2)] = -(1/2) := by
    rw [calculate_energy, hsB, haB]
    simp [List.lookup]
  have qB : qem_accept "B" (supOf [("A", ⟨"B", -1⟩), ("B", ⟨"A", -1⟩)])
      (attOf [("A", ⟨"B", -1⟩), ("B", ⟨"A", -1⟩)]) [("A", 1/2)]
      (wInitOf [("A", ⟨1/2, none⟩), ("B", ⟨1/2, none⟩)]) = 2/5 := by
    rw [qem_accept, if_neg (by simp [haB])]
    simp only [heB]
    have hw : wInitOf [("A", ⟨1/2, none⟩), ("B", ⟨1/2, none⟩)] "B" = 1/2 := rfl
    rw [hw, if_neg (by norm_num)]
    rw [h]
    norm_num
  rw [qemFold]
  simp only [List.foldl_cons, List.foldl_nil, List.nil_append]
  rw [qA]
  simp only [List.singleton_append, List.cons_append, List.nil_append]
  rw [qB]

/-- C1 amended: only the full-graph propagation (`enrich_with_final`) rejects
a cyclic edge set; `apply_qem_to_restriction` — the propagation used by both
explanation searches — catches the failure and silently proceeds over the
arbitrary order `list(nodes.keys())`, returning a weight mapping. -/
theorem c1_cycle_handling (nodes : List (String × NodeData))
    (edges : List (String × EdgeData)) (fw : Framework)
    (hce : topoSort edges = none)
    (hcf : topoSort fw.edges = none) (hn : fw.nodes ≠ []) (he : fw.edges ≠ []) :
    enrich_with_final nodes edges = Except.error "NetworkXUnfeasible" ∧
    apply_qem_to_restriction fw =
      qemFold (fw.nodes.map Prod.fst) (supOf fw.edges) (attOf fw.edges)
        (wInitOf fw.nodes) := by
  constructor
  · unfold enrich_with_final
    rw [hce]
  · unfold apply_qem_to_restriction
    rw [if_neg (by simpa [List.isEmpty_iff] using hn),
        if_neg (by simpa [List.isEmpty_iff] using he), hcf]

/-- Witness for C1 at a concrete cyclic input (self-loop `P → P`). -/
theorem c1_cycle_handling_witness :
    enrich_with_final [("P", ⟨1/2, none⟩)] [("P", ⟨"P", 1⟩)] =
      Except.error "NetworkXUnfeasible" ∧
    apply_qem_to_restriction ⟨[("P", ⟨1/2, none⟩)], [("P", ⟨"P", 1⟩)]⟩ =
      qemFold ([("P", (⟨1/2, none⟩ : NodeData))].map Prod.fst)
        (supOf [("P", ⟨"P", 1⟩)]) (attOf [("P", ⟨"P", 1⟩)])
        (wInitOf [("P", ⟨1/2, none⟩)]) :=
  c1_cycle_handling _ _ ⟨[("P", ⟨1/2, none⟩)], [("P", ⟨"P", 1⟩)]⟩
    rfl rfl (by simp) (by simp)

/-! ## C2: which nodes receive a final weight -/

/-- C2 counterexample: with nodes `{A, B, C}` and the single edge
`A supports B`, the node `C` (incident to no edge) is dropped from the
returned final-weight mapping by both propagation entry points. -/
theorem c2_isolated_node_counterexample :
    ("C" ∈ ([("A", (⟨1/2, none⟩ : NodeData)), ("B", ⟨1/2, none⟩),
              ("C", ⟨1/2, none⟩)].map Prod.fst)) ∧
    (apply_qem_to_restriction
        ⟨[("A", ⟨1/2, none⟩), ("B", ⟨1/2, none⟩), ("C", ⟨1/2, none⟩)],
         [("A", ⟨"B", 1⟩)]⟩).lookup "C" = none ∧
    enrich_with_final
        [("A", ⟨1/2, none⟩), ("B", ⟨1/2, none⟩), ("C", ⟨1/2, none⟩)]
        [("A", ⟨"B", 1⟩)] = Except.ok [("A", 1/2), ("B", 3/5)] := by
  have ht : topoSort [("A", ⟨"B", 1⟩)] = some ["A", "B"] := by decide
  have hsB : supOf [("A", ⟨"B", 1⟩)] "B" = ["A"] := by decide
  have haB : attOf [("A", ⟨"B", 1⟩)] "B" = [] := by decide
  have qA : qem_accept "A" (supOf [("A", ⟨"B", 1⟩)]) (attOf [("A", ⟨"B", 1⟩)]) []
      (wInitOf [("A", ⟨1/2, none⟩), ("B", ⟨1/2, none⟩), ("C", ⟨1/2, none⟩)]) = 1/2 := by
    rw [qem_accept, if_pos ⟨by decide, by decide⟩]
    rfl
  have heB : calculate_energy "B" (supOf [("A", ⟨"B", 1⟩)]) (attOf [("A", ⟨"B", 1⟩)])
      [("A", 1/2)] = 1/2 := by
    rw [calculate_energy, hsB, haB]
    simp [List.lookup]
  have qB : qem_accept "B" (supOf [("A", ⟨"B", 1⟩)]) (attOf [("A", ⟨"B", 1⟩)])
      [("A", 1/2)]
      (wInitOf [("A", ⟨1/2, none⟩), ("B", ⟨1/2, none⟩), ("C", ⟨1/2, none⟩)]) = 3/5 := by
    rw [qem_accept, if_neg (by simp [hsB])]
    simp only [heB]
    have hw : wInitOf [("A", ⟨1/2, none⟩), ("B", ⟨1/2, none⟩), ("C", ⟨1/2, none⟩)]
        "B" = 1/2 := rfl
    rw [hw, if_pos (by norm_num)]
    rw [h]
    norm_num
  have hfold : qemFold ["A", "B"] (supOf [("A", ⟨"B", 1⟩)]) (attOf [("A", ⟨"B", 1⟩)])
      (wInitOf [("A", ⟨1/2, none⟩), ("B", ⟨1/2, none⟩), ("C", ⟨1/2, none⟩)]) =
      [("A", 1/2), ("B", 3/5)] := by
    rw [qemFold]
    simp only [List.foldl_cons, List.foldl_nil, List.nil_append]
    rw [qA]
    simp only [List.singleton_append, List.cons_append, List.nil_append]
    rw [qB]
  refine ⟨by decide, ?_, ?_⟩
  · rw [apply_qem_to_restriction, if_neg (by decide), if_neg (by decide), ht]
    dsimp only
    rw [hfold]
    decide
  · rw [enrich_with_final, ht]
    dsimp only
    rw [hfold]

/-- C2 amended: when the restricted edge set is empty every input node appears
in the returned mapping (with its initial weight); otherwise, on an acyclic
edge set, the returned keys are exactly the topological order of the
edge-incident nodes — nodes incident to no edge are dropped. -/
theorem c2_returned_keys (fw fw0 : Framework) (l : List String) (y : String)
    (hn : fw.nodes ≠ []) (he : fw.edges ≠ []) (hs : topoSort fw.edges = some l)
    (h0 : fw0.edges = []) :
    (apply_qem_to_restriction fw).map Prod.fst = l ∧
    (y ∈ l ↔ ∃ p ∈ fw.edges, y = p.1 ∨ y = p.2.successor_id) ∧
    (apply_qem_to_restriction fw0).map Prod.fst = fw0.nodes.map Prod.fst := by
  refine ⟨?_, ?_, ?_⟩
  · unfold apply_qem_to_restriction
    rw [if_neg (by simpa [List.isEmpty_iff] using hn),
        if_neg (by simpa [List.isEmpty_iff] using he), hs]
    exact qemFold_keys _ _ _ _
  · rw [topoSort_mem fw.edges l y hs]
    exact mem_graphNodes fw.edges y
  · by_cases hne : fw0.nodes.isEmpty
    · simp [apply_qem_to_restriction, hne, List.isEmpty_iff.mp hne]
    · simp [apply_qem_to_restriction, hne, h0]

/-- Witness for C2 at concrete inputs: an edge `X supports Y` plus the isolated
node `Z`, and an edgeless singleton framework. -/
theorem c2_returned_keys_witness :
    (apply_qem_to_restriction
        ⟨[("X", ⟨1/2, none⟩), ("Y", ⟨1/2, none⟩), ("Z", ⟨1/2, none⟩)],
         [("X", ⟨"Y", 1⟩)]⟩).map Prod.fst = ["X", "Y"] ∧
    ("Z" ∈ ["X", "Y"] ↔ ∃ p ∈ [("X", (⟨"Y", 1⟩ : EdgeData))],
        "Z" = p.1 ∨ "Z" = p.2.successor_id) ∧
    (apply_qem_to_restriction ⟨[("W", ⟨1/3, none⟩)], []⟩).map Prod.fst =
      [("W", (⟨1/3, none⟩ : NodeData))].map Prod.fst :=
  c2_returned_keys
    ⟨[("X", ⟨1/2, none⟩), ("Y", ⟨1/2, none⟩), ("Z", ⟨1/2, none⟩)],
     [("X", ⟨"Y", 1⟩)]⟩
    ⟨[("W", ⟨1/3, none⟩)], []⟩ ["X", "Y"] "Z" (by simp) (by simp) rfl rfl

/-! ## The explanation searches
(generate_constructive_explanations.py / generate_destructive_explanations.py) -/

/-- One ranked branch category as parsed from the rankings CSV: pre-ranking
branch ids and node lists, post-ranking ids and node lists.  A missing
category is the empty dict, whose `.get` fields are all empty. -/
structure RankingCat where
  branches_abv : List String := []
  branches : List (List String) := []
  ranking_abv : List String := []
  ranking : List (List String) := []
deriving DecidableEq

/-- The six branch categories of one heuristic's ranking rows. -/
structure HeuristicData where
  unweakened_con : RankingCat := {}
  pro : RankingCat := {}
  con_weakening : RankingCat := {}
  unweakened_pro : RankingCat := {}
  con : RankingCat := {}
  pro_weakening : RankingCat := {}
deriving DecidableEq

/-- `get_branch_arguments`: flatten the branch node lists into one list. -/
def get_branch_arguments (branches_data : List (List String)) : List String :=
  branches_data.flatten

/-- `final_weights.get(target_id, w0_target)`: the search's read of the
target's propagated weight, defaulting to its initial weight. -/
def readFinal (m : List (String × ℚ)) (t : String) (w0 : ℚ) : ℚ :=
  (m.lookup t).getD w0

/-- One retest of a search: restrict the debate to `args`, propagate, read the
target's weight via `readFinal`, and compare against `w0` in the direction of
the search (`gt = true` uses `>`, the strengthening comparison). -/
def stepTest (d : Debate) (t : String) (w0 : ℚ) (gt : Bool) (args : List String) : Bool :=
  let w1 := readFinal (apply_qem_to_restriction (create_restriction d args)) t w0
  if gt then decide (w0 < w1) else decide (w1 < w0)

/-- The shared incremental branch-addition loop: extend the accumulated node
list with the next ranked branch (appending its id when the parallel abv list
still has one — the `i < len(...)` safety check), retest on
`pre ++ accumulated ++ suf`, and stop at the first success. -/
def addLoop (d : Debate) (t : String) (w0 : ℚ) (gt : Bool) (pre suf : List String) :
    List (List String) → List String → List String → List String →
      Option (List String × List String)
  | [], _, _, _ => none
  | b :: bs, abvs, accA, accV =>
    let accA2 := accA ++ b
    let accV2 := match abvs with
      | [] => accV
      | a :: _ => accV ++ [a]
    if stepTest d t w0 gt (pre ++ accA2 ++ suf) then some (accA2, accV2)
    else addLoop d t w0 gt pre suf bs abvs.tail accA2 accV2

/-- The result record of a search: the `success` flag and the
per-stage branch-id and node-id lists. -/
structure ExplResult where
  success : Bool
  abv : List (List String)
  args : List (List String)
deriving DecidableEq

/-- `generate_constructive_explanation(rankings_data, debate_data, heuristic)`:
target-presence check, then the strengthening block (base = unweakened
con-branches, add pro then con-weakening branches) or — for every other
direction string, "unchanged" included — the weakening block (base =
unweakened pro-branches, add con then pro-weakening branches). -/
def generate_constructive_explanation (d : Debate) (t : String) (direction : String)
    (hd : HeuristicData) : ExplResult :=
  if (d.nodes.lookup t).isNone then ⟨false, [], []⟩
  else
    let w0 := ((d.nodes.lookup t).map NodeData.initial_weight).getD 0
    if direction = "strengthening" then
      let uc := hd.unweakened_con
      let base := get_branch_arguments uc.branches
      if stepTest d t w0 true (base ++ [t]) then
        ⟨true, [uc.branches_abv, []], [base, []]⟩
      else
        match addLoop d t w0 true base [t] hd.pro.ranking hd.pro.ranking_abv [] [] with
        | some (pa, pv) => ⟨true, [uc.branches_abv, pv], [base, pa]⟩
        | none =>
          let allPro := hd.pro.ranking.flatten
          let allProV := hd.pro.ranking_abv.take hd.pro.ranking.length
          match addLoop d t w0 true (base ++ allPro) [t] hd.con_weakening.ranking
              hd.con_weakening.ranking_abv [] [] with
          | some (ca, cv) => ⟨true, [uc.branches_abv, allProV, cv], [base, allPro, ca]⟩
          | none => ⟨false, [], []⟩
    else
      let up := hd.unweakened_pro
      let base := get_branch_arguments up.branches
      if stepTest d t w0 false (base ++ [t]) then
        ⟨true, [up.branches_abv, []], [base, []]⟩
      else
        match addLoop d t w0 false base [t] hd.con.ranking hd.con.ranking_abv [] [] with
        | some (ca, cv) => ⟨true, [up.branches_abv, cv], [base, ca]⟩
        | none =>
          let allCon := hd.con.ranking.flatten
          let allConV := hd.con.ranking_abv.take hd.con.ranking.length
          match addLoop d t w0 false (base ++ allCon) [t] hd.pro_weakening.ranking
              hd.pro_weakening.ranking_abv [] [] with
          | some (pa, pv) => ⟨true, [up.branches_abv, allConV, pv], [base, allCon, pa]⟩
          | none => ⟨false, [], []⟩

/-- `generate_destructive_explanation`: the base is maximal (all unweakened
branches of one polarity plus all matching weakening branches plus the
target), then one incremental loop over the opposing category.  `unchanged`
again falls into the weakening `else` block. -/
def generate_destructive_explanation (d : Debate) (t : String) (direction : String)
    (hd : HeuristicData) : ExplResult :=
  if (d.nodes.lookup t).isNone then ⟨false, [], []⟩
  else
    let w0 := ((d.nodes.lookup t).map NodeData.initial_weight).getD 0
    if direction = "strengthening" then
      let uc := hd.unweakened_con
      let cw := hd.con_weakening
      let ucA := get_branch_arguments uc.branches
      let cwA := get_branch_arguments cw.branches
      let base := ucA ++ cwA ++ [t]
      if stepTest d t w0 true base then
        ⟨true, [uc.branches_abv, cw.branches_abv, []], [ucA, cwA, []]⟩
      else
        match addLoop d t w0 true base [] hd.pro.ranking hd.pro.ranking_abv [] [] with
        | some (pa, pv) => ⟨true, [uc.branches_abv, cw.branches_abv, pv], [ucA, cwA, pa]⟩
        | none => ⟨false, [], []⟩
    else
      let up := hd.unweakened_pro
      let pw := hd.pro_weakening
      let upA := get_branch_arguments up.branches
      let pwA := get_branch_arguments pw.branches
      let base := upA ++ pwA ++ [t]
      if stepTest d t w0 false base then
        ⟨true, [up.branches_abv, pw.branches_abv, []], [upA, pwA, []]⟩
      else
        match addLoop d t w0 false base [] hd.con.ranking hd.con.ranking_abv [] [] with
        | some (ca, cv) => ⟨true, [up.branches_abv, pw.branches_abv, cv], [upA, pwA, ca]⟩
        | none => ⟨false, [], []⟩

/-- C3 amended: a direction of `unchanged` is not reported as not-applicable;
both searches treat every non-"strengthening" direction — `unchanged`
included — exactly as the weakening case and run the branch-addition search. -/
theorem c3_unchanged_runs_weakening_search (d : Debate) (t : String)
    (hd : HeuristicData) :
    generate_constructive_explanation d t "unchanged" hd =
      generate_constructive_explanation d t "weakening" hd ∧
    generate_destructive_explanation d t "unchanged" hd =
      generate_destructive_explanation d t "weakening" hd := by
  constructor
  · rw [generate_constructive_explanation, generate_constructive_explanation]
    exact rfl
  · rw [generate_destructive_explanation, generate_destructive_explanation]
    exact rfl

/-! ## Characterizing the incremental addition loop -/

theorem addLoop_none_iff (d : Debate) (t : String) (w0 : ℚ) (gt : Bool)
    (pre suf : List String) :
    ∀ (bs : List (List String)) (abvs accA accV : List String),
      addLoop d t w0 gt pre suf bs abvs accA accV = none ↔
        ∀ k, k < bs.length →
          stepTest d t w0 gt (pre ++ (accA ++ (bs.take (k+1)).flatten) ++ suf) = false := by
  intro bs
  induction bs with
  | nil =>
    intro abvs accA accV
    simp [addLoop]
  | cons b bs ih =>
    intro abvs accA accV
    simp only [addLoop]
    by_cases hstep : stepTest d t w0 gt (pre ++ (accA ++ b) ++ suf) = true
    · rw [if_pos hstep]
      constructor
      · intro hcontra; exact absurd hcontra (by simp)
      · intro hall
        have h0 := hall 0 (by simp)
        have harg : accA ++ ((b :: bs).take 1).flatten = accA ++ b := by simp
        rw [harg, hstep] at h0
        cases h0
    · rw [if_neg hstep]
      have hstep0 : stepTest d t w0 gt (pre ++ (accA ++ b) ++ suf) = false := by
        revert hstep; cases stepTest d t w0 gt (pre ++ (accA ++ b) ++ suf) <;> simp
      rw [ih abvs.tail (accA ++ b) _]
      constructor
      · intro hall k hk
        cases k with
        | zero =>
          have harg : accA ++ ((b :: bs).take 1).flatten = accA ++ b := by simp
          rw [harg]
          exact hstep0
        | succ k =>
          have harg : accA ++ ((b :: bs).take (k + 2)).flatten =
              (accA ++ b) ++ (bs.take (k + 1)).flatten := by simp
          rw [harg]
          exact hall k (by simpa using hk)
      · intro hall k hk
        have harg : (accA ++ b) ++ (bs.take (k + 1)).flatten =
            accA ++ ((b :: bs).take (k + 2)).flatten := by simp
        rw [harg]
        exact hall (k + 1) (by simpa using hk)

theorem addLoop_first_success (d : Debate) (t : String) (w0 : ℚ) (gt : Bool)
    (pre suf : List String) :
    ∀ (bs : List (List String)) (abvs accA accV : List String) (k : Nat),
      k < bs.length →
      (∀ j, j < k →
        stepTest d t w0 gt (pre ++ (accA ++ (bs.take (j+1)).flatten) ++ suf) = false) →
      stepTest d t w0 gt (pre ++ (accA ++ (bs.take (k+1)).flatten) ++ suf) = true →
      addLoop d t w0 gt pre suf bs abvs accA accV =
        some (accA ++ (bs.take (k+1)).flatten, accV ++ abvs.take (k+1)) := by
  intro bs
  induction bs with
  | nil =>
    intro abvs accA accV k hk
    exact absurd hk (by simp)
  | cons b bs ih =>
    intro abvs accA accV k hk hfirst hsucc
    simp only [addLoop]
    cases k with
    | zero =>
      have harg : accA ++ ((b :: bs).take 1).flatten = accA ++ b := by simp
      rw [harg] at hsucc
      rw [if_pos hsucc]
      have h1 : accA ++ b = accA ++ ((b :: bs).take 1).flatten := by simp
      have h2 : (match abvs with | [] => accV | a :: _ => accV ++ [a]) =
          accV ++ abvs.take 1 := by
        cases abvs <;> simp
      rw [h1, h2]
    | succ k =>
      have h0 := hfirst 0 (Nat.succ_pos k)
      have harg0 : accA ++ ((b :: bs).take 1).flatten = accA ++ b := by simp
      rw [harg0] at h0
      have hfirst2 : ∀ j, j < k →
          stepTest d t w0 gt
            (pre ++ ((accA ++ b) ++ (bs.take (j + 1)).flatten) ++ suf) = false := by
        intro j hj
        have hx := hfirst (j + 1) (by omega)
        have harg : accA ++ ((b :: bs).take (j + 2)).flatten =
            (accA ++ b) ++ (bs.take (j + 1)).flatten := by simp
        rw [harg] at hx
        exact hx
      have hsucc2 : stepTest d t w0 gt
          (pre ++ ((accA ++ b) ++ (bs.take (k + 1)).flatten) ++ suf) = true := by
        have harg : accA ++ ((b :: bs).take (k + 2)).flatten =
            (accA ++ b) ++ (bs.take (k + 1)).flatten := by simp
        rw [harg] at hsucc
        exact hsucc
      have h1 : (accA ++ b) ++ (bs.take (k + 1)).flatten =
          accA ++ ((b :: bs).take (k + 2)).flatten := by simp
      cases abvs with
      | nil =>
        rw [if_neg (by rw [h0]; exact Bool.false_ne_true)]
        dsimp only [List.tail_nil]
        rw [ih [] (accA ++ b) accV k (by simpa using hk) hfirst2 hsucc2]
        rw [h1]
        simp
      | cons a r =>
        rw [if_neg (by rw [h0]; exact Bool.false_ne_true)]
        dsimp only [List.tail_cons]
        rw [ih r (accA ++ b) (accV ++ [a]) k (by simpa using hk) hfirst2 hsucc2]
        rw [h1]
        simp

/-- Unfolding of the constructive search's strengthening block once the target
is known to be present. -/
theorem genC_strengthening_unfold (d : Debate) (t : String) (nd : NodeData)
    (hd : HeuristicData) (hnd : d.nodes.lookup t = some nd) :
    generate_constructive_explanation d t "strengthening" hd =
      (if stepTest d t nd.initial_weight true
            (get_branch_arguments hd.unweakened_con.branches ++ [t]) then
        ⟨true, [hd.unweakened_con.branches_abv, []],
          [get_branch_arguments hd.unweakened_con.branches, []]⟩
      else
        match addLoop d t nd.initial_weight true
            (get_branch_arguments hd.unweakened_con.branches) [t]
            hd.pro.ranking hd.pro.ranking_abv [] [] with
        | some (pa, pv) =>
          ⟨true, [hd.unweakened_con.branches_abv, pv],
            [get_branch_arguments hd.unweakened_con.branches, pa]⟩
        | none =>
          match addLoop d t nd.initial_weight true
              (get_branch_arguments hd.unweakened_con.branches ++
                hd.pro.ranking.flatten) [t]
              hd.con_weakening.ranking hd.con_weakening.ranking_abv [] [] with
          | some (ca, cv) =>
            ⟨true, [hd.unweakened_con.branches_abv,
                hd.pro.ranking_abv.take hd.pro.ranking.length, cv],
              [get_branch_arguments hd.unweakened_con.branches,
                hd.pro.ranking.flatten, ca]⟩
          | none => ⟨false, [], []⟩) := by
  rw [generate_constructive_explanation, hnd]
  exact rfl

/-- C5: the constructive search in the strengthening case.  The base is the
union of the unweakened con-branch arguments plus the target.  (1) If the base
restriction already strengthens the target, success with an empty addition.
(2) Otherwise, pro-branches are added one at a time in ranked order,
re-propagating each time, and the first addition whose test succeeds is
returned.  (3) If the pro list is exhausted, con-weakening branches are added
one at a time on top of all added pro-branches by the same protocol.
(4) If everything is exhausted without success, the explicit failure record
`success = false` is returned — no exception. -/
theorem c5_constructive_strengthening_protocol (d : Debate) (t : String)
    (nd : NodeData) (hd : HeuristicData) (hnd : d.nodes.lookup t = some nd) :
    (stepTest d t nd.initial_weight true
        (get_branch_arguments hd.unweakened_con.branches ++ [t]) = true →
      generate_constructive_explanation d t "strengthening" hd =
        ⟨true, [hd.unweakened_con.branches_abv, []],
          [get_branch_arguments hd.unweakened_con.branches, []]⟩) ∧
    (stepTest d t nd.initial_weight true
        (get_branch_arguments hd.unweakened_con.branches ++ [t]) = false →
      ∀ k, k < hd.pro.ranking.length →
      (∀ j, j < k → stepTest d t nd.initial_weight true
        (get_branch_arguments hd.unweakened_con.branches ++
          (hd.pro.ranking.take (j+1)).flatten ++ [t]) = false) →
      stepTest d t nd.initial_weight true
        (get_branch_arguments hd.unweakened_con.branches ++
          (hd.pro.ranking.take (k+1)).flatten ++ [t]) = true →
      generate_constructive_explanation d t "strengthening" hd =
        ⟨true, [hd.unweakened_con.branches_abv, hd.pro.ranking_abv.take (k+1)],
          [get_branch_arguments hd.unweakened_con.branches,
            (hd.pro.ranking.take (k+1)).flatten]⟩) ∧
    (stepTest d t nd.initial_weight true
        (get_branch_arguments hd.unweakened_con.branches ++ [t]) = false →
      (∀ j, j < hd.pro.ranking.length → stepTest d t nd.initial_weight true
        (get_branch_arguments hd.unweakened_con.branches ++
          (hd.pro.ranking.take (j+1)).flatten ++ [t]) = false) →
      ∀ k, k < hd.con_weakening.ranking.length →
      (∀ j, j < k → stepTest d t nd.initial_weight true
        (get_branch_arguments hd.unweakened_con.branches ++
          hd.pro.ranking.flatten ++
          (hd.con_weakening.ranking.take (j+1)).flatten ++ [t]) = false) →
      stepTest d t nd.initial_weight true
        (get_branch_arguments hd.unweakened_con.branches ++
          hd.pro.ranking.flatten ++
          (hd.con_weakening.ranking.take (k+1)).flatten ++ [t]) = true →
      generate_constructive_explanation d t "strengthening" hd =
        ⟨true, [hd.unweakened_con.branches_abv,
            hd.pro.ranking_abv.take hd.pro.ranking.length,
            hd.con_weakening.ranking_abv.take (k+1)],
          [get_branch_arguments hd.unweakened_con.branches,
            hd.pro.ranking.flatten,
            (hd.con_weakening.ranking.take (k+1)).flatten]⟩) ∧
    (stepTest d t nd.initial_weight true
        (get_branch_arguments hd.unweakened_con.branches ++ [t]) = false →
      (∀ j, j < hd.pro.ranking.length → stepTest d t nd.initial_weight true
        (get_branch_arguments hd.unweakened_con.branches ++
          (hd.pro.ranking.take (j+1)).flatten ++ [t]) = false) →
      (∀ j, j < hd.con_weakening.ranking.length → stepTest d t nd.initial_weight true
        (get_branch_arguments hd.unweakened_con.branches ++
          hd.pro.ranking.flatten ++
          (hd.con_weakening.ranking.take (j+1)).flatten ++ [t]) = false) →
      generate_constructive_explanation d t "strengthening" hd =
        ⟨false, [], []⟩) := by
  rw [genC_strengthening_unfold d t nd hd hnd]
  refine ⟨?_, ?_, ?_, ?_⟩
  · intro hb
    rw [if_pos hb]
  · intro hb k hk hfirst hsucc
    rw [if_neg (by rw [hb]; exact Bool.false_ne_true)]
    rw [addLoop_first_success d t nd.initial_weight true
      (get_branch_arguments hd.unweakened_con.branches) [t]
      hd.pro.ranking hd.pro.ranking_abv [] [] k hk
      (fun j hj => by simpa using hfirst j hj)
      (by simpa using hsucc)]
    simp
  · intro hb hall k hk hfirst hsucc
    rw [if_neg (by rw [hb]; exact Bool.false_ne_true)]
    rw [(addLoop_none_iff d t nd.initial_weight true
      (get_branch_arguments hd.unweakened_con.branches) [t]
      hd.pro.ranking hd.pro.ranking_abv [] []).mpr
      (fun j hj => by simpa using hall j hj)]
    rw [addLoop_first_success d t nd.initial_weight true
      (get_branch_arguments hd.unweakened_con.branches ++ hd.pro.ranking.flatten) [t]
      hd.con_weakening.ranking hd.con_weakening.ranking_abv [] [] k hk
      (fun j hj => by simpa using hfirst j hj)
      (by simpa using hsucc)]
    simp
  · intro hb hallp hallc
    rw [if_neg (by rw [hb]; exact Bool.false_ne_true)]
    rw [(addLoop_none_iff d t nd.initial_weight true
      (get_branch_arguments hd.unweakened_con.branches) [t]
      hd.pro.ranking hd.pro.ranking_abv [] []).mpr
      (fun j hj => by simpa using hallp j hj)]
    rw [(addLoop_none_iff d t nd.initial_weight true
      (get_branch_arguments hd.unweakened_con.branches ++ hd.pro.ranking.flatten) [t]
      hd.con_weakening.ranking hd.con_weakening.ranking_abv [] []).mpr
      (fun j hj => by simpa using hallc j hj)]

/-- Witness for C5 at a concrete input: a target-only debate with no ranked
branches — every stage is exhausted and the explicit failure record is
returned. -/
theorem c5_constructive_strengthening_protocol_witness :
    generate_constructive_explanation ⟨[("T", ⟨1/2, none⟩)], []⟩ "T" "strengthening"
      ({} : HeuristicData) = ⟨false, [], []⟩ := by
  have hb : stepTest ⟨[("T", ⟨1/2, none⟩)], []⟩ "T"
      ((⟨1/2, none⟩ : NodeData)).initial_weight true
      (get_branch_arguments ({} : HeuristicData).unweakened_con.branches ++ ["T"]) =
      false := by
    rw [stepTest]
    have hcr : create_restriction ⟨[("T", ⟨1/2, none⟩)], []⟩
        (get_branch_arguments ({} : HeuristicData).unweakened_con.branches ++ ["T"]) =
        ⟨[("T", ⟨1/2, none⟩)], []⟩ := rfl
    rw [hcr]
    have hap : apply_qem_to_restriction ⟨[("T", ⟨1/2, none⟩)], []⟩ =
        [("T", 1/2)] := rfl
    rw [hap]
    have hrf : readFinal [("T", (1/2 : ℚ))] "T"
        ((⟨1/2, none⟩ : NodeData)).initial_weight = 1/2 := rfl
    rw [hrf]
    rw [if_pos rfl]
    show decide ((1/2 : ℚ) < 1/2) = false
    simp only [decide_eq_false_iff_not]
    norm_num
  exact (c5_constructive_strengthening_protocol ⟨[("T", ⟨1/2, none⟩)], []⟩ "T"
      ⟨1/2, none⟩ {} rfl).2.2.2 hb
    (fun j hj => absurd hj (by simp))
    (fun j hj => absurd hj (by simp))

/-! ## C3: the `unchanged` direction -/

/-- A debate where the target `T` is attacked by the single significant
argument `C`, and `final(T) = initial(T)` on the full graph would make the
direction `unchanged`. -/
def exDebateC3 : Debate :=
  ⟨[("T", ⟨1/2, none⟩), ("C", ⟨1/2, none⟩)], [("C", ⟨"T", -1⟩)]⟩

/-- Rankings for `exDebateC3`: one con-branch `[C]`. -/
def exRankC3 : HeuristicData :=
  { con := { branches_abv := ["Cb1"], branches := [["C"]],
             ranking_abv := ["Cb1"], ranking := [["C"]] } }

/-- C3 counterexample: with direction `unchanged`, neither search reports a
not-applicable outcome; both run the weakening branch-addition search and
return `success = true` with the con-branch `[C]` as explanation. -/
theorem c3_unchanged_counterexample :
    generate_constructive_explanation exDebateC3 "T" "unchanged" exRankC3 =
      ⟨true, [[], ["Cb1"]], [[], ["C"]]⟩ ∧
    generate_destructive_explanation exDebateC3 "T" "unchanged" exRankC3 =
      ⟨true, [[], [], ["Cb1"]], [[], [], ["C"]]⟩ := by
  have hts1 : stepTest exDebateC3 "T" (1/2) false ["T"] = false := by
    rw [stepTest]
    have hcr : create_restriction exDebateC3 ["T"] =
        ⟨[("T", ⟨1/2, none⟩)], []⟩ := rfl
    rw [hcr]
    have hap : apply_qem_to_restriction ⟨[("T", ⟨1/2, none⟩)], []⟩ =
        [("T", 1/2)] := rfl
    rw [hap]
    have hrf : readFinal [("T", (1/2 : ℚ))] "T" (1/2) = 1/2 := rfl
    rw [hrf]
    rw [if_neg (by simp)]
    simp only [decide_eq_false_iff_not]
    norm_num
  have hap2 : apply_qem_to_restriction
      ⟨[("C", ⟨1/2, none⟩), ("T", ⟨1/2, none⟩)], [("C", ⟨"T", -1⟩)]⟩ =
      [("C", 1/2), ("T", 2/5)] := by
    have ht : topoSort [("C", ⟨"T", -1⟩)] = some ["C", "T"] := by decide
    rw [apply_qem_to_restriction, if_neg (by decide), if_neg (by decide), ht]
    dsimp only
    have haT : attOf [("C", ⟨"T", -1⟩)] "T" = ["C"] := by decide
    have qC : qem_accept "C" (supOf [("C", ⟨"T", -1⟩)]) (attOf [("C", ⟨"T", -1⟩)]) []
        (wInitOf [("C", ⟨1/2, none⟩), ("T", ⟨1/2, none⟩)]) = 1/2 := by
      rw [qem_accept, if_pos ⟨by decide, by decide⟩]
      rfl
    have heT : calculate_energy "T" (supOf [("C", ⟨"T", -1⟩)])
        (attOf [("C", ⟨"T", -1⟩)]) [("C", 1/2)] = -(1/2) := by
      rw [calculate_energy, haT, show supOf [("C", ⟨"T", -1⟩)] "T" = [] from by decide]
      simp [List.lookup]
    have qT : qem_accept "T" (supOf [("C", ⟨"T", -1⟩)]) (attOf [("C", ⟨"T", -1⟩)])
        [("C", 1/2)] (wInitOf [("C", ⟨1/2, none⟩), ("T", ⟨1/2, none⟩)]) = 2/5 := by
      rw [qem_accept, if_neg (by simp [haT])]
      simp only [heT]
      have hw : wInitOf [("C", ⟨1/2, none⟩), ("T", ⟨1/2, none⟩)] "T" = 1/2 := rfl
      rw [hw, if_neg (by norm_num)]
      rw [h]
      norm_num
    rw [qemFold]
    simp only [List.foldl_cons, List.foldl_nil, List.nil_append]
    rw [qC]
    simp only [List.singleton_append, List.cons_append, List.nil_append]
    rw [qT]
  have hap3 : apply_qem_to_restriction
      ⟨[("T", ⟨1/2, none⟩), ("C", ⟨1/2, none⟩)], [("C", ⟨"T", -1⟩)]⟩ =
      [("C", 1/2), ("T", 2/5)] := by
    have ht : topoSort [("C", ⟨"T", -1⟩)] = some ["C", "T"] := by decide
    rw [apply_qem_to_restriction, if_neg (by decide), if_neg (by decide), ht]
    dsimp only
    have haT : attOf [("C", ⟨"T", -1⟩)] "T" = ["C"] := by decide
    have qC : qem_accept "C" (supOf [("C", ⟨"T", -1⟩)]) (attOf [("C", ⟨"T", -1⟩)]) []
        (wInitOf [("T", ⟨1/2, none⟩), ("C", ⟨1/2, none⟩)]) = 1/2 := by
      rw [qem_accept, if_pos ⟨by decide, by decide⟩]
      rfl
    have heT : calculate_energy "T" (supOf [("C", ⟨"T", -1⟩)])
        (attOf [("C", ⟨"T", -1⟩)]) [("C", 1/2)] = -(1/2) := by
      rw [calculate_energy, haT, show supOf [("C", ⟨"T", -1⟩)] "T" = [] from by decide]
      simp [List.lookup]
    have qT : qem_accept "T" (supOf [("C", ⟨"T", -1⟩)]) (attOf [("C", ⟨"T", -1⟩)])
        [("C", 1/2)] (wInitOf [("T", ⟨1/2, none⟩), ("C", ⟨1/2, none⟩)]) = 2/5 := by
      rw [qem_accept, if_neg (by simp [haT])]
      simp only [heT]
      have hw : wInitOf [("T", ⟨1/2, none⟩), ("C", ⟨1/2, none⟩)] "T" = 1/2 := rfl
      rw [hw, if_neg (by norm_num)]
      rw [h]
      norm_num
    rw [qemFold]
    simp only [List.foldl_cons, List.foldl_nil, List.nil_append]
    rw [qC]
    simp only [List.singleton_append, List.cons_append, List.nil_append]
    rw [qT]
  have hts2 : stepTest exDebateC3 "T" (1/2) false ["C", "T"] = true := by
    rw [stepTest]
    have hcr : create_restriction exDebateC3 ["C", "T"] =
        ⟨[("C", ⟨1/2, none⟩), ("T", ⟨1/2, none⟩)], [("C", ⟨"T", -1⟩)]⟩ := rfl
    rw [hcr, hap2]
    have hrf : readFinal [("C", (1/2 : ℚ)), ("T", 2/5)] "T" (1/2) = 2/5 := rfl
    rw [hrf]
    rw [if_neg (by simp)]
    simp only [decide_eq_true_eq]
    norm_num
  have hts3 : stepTest exDebateC3 "T" (1/2) false ["T", "C"] = true := by
    rw [stepTest]
    have hcr : create_restriction exDebateC3 ["T", "C"] =
        ⟨[("T", ⟨1/2, none⟩), ("C", ⟨1/2, none⟩)], [("C", ⟨"T", -1⟩)]⟩ := rfl
    rw [hcr, hap3]
    have hrf : readFinal [("C", (1/2 : ℚ)), ("T", 2/5)] "T" (1/2) = 2/5 := rfl
    rw [hrf]
    rw [if_neg (by simp)]
    simp only [decide_eq_true_eq]
    norm_num
  constructor
  · have step1 : generate_constructive_explanation exDebateC3 "T" "unchanged" exRankC3 =
        (if stepTest exDebateC3 "T" (1/2) false ["T"] then
          (⟨true, [[], []], [[], []]⟩ : ExplResult)
        else
          match addLoop exDebateC3 "T" (1/2) false [] ["T"] [["C"]] ["Cb1"] [] [] with
          | some (ca, cv) => ⟨true, [[], cv], [[], ca]⟩
          | none =>
            match addLoop exDebateC3 "T" (1/2) false ["C"] ["T"] [] [] [] [] with
            | some (pa, pv) => ⟨true, [[], ["Cb1"], pv], [[], ["C"], pa]⟩
            | none => ⟨false, [], []⟩) := rfl
    rw [step1, hts1, if_neg Bool.false_ne_true]
    have hloop : addLoop exDebateC3 "T" (1/2) false [] ["T"] [["C"]] ["Cb1"] [] [] =
        some (["C"], ["Cb1"]) := by
      simp only [addLoop, List.nil_append, List.cons_append]
      rw [hts2]
      rfl
    rw [hloop]
  · have step1 : generate_destructive_explanation exDebateC3 "T" "unchanged" exRankC3 =
        (if stepTest exDebateC3 "T" (1/2) false ["T"] then
          (⟨true, [[], [], []], [[], [], []]⟩ : ExplResult)
        else
          match addLoop exDebateC3 "T" (1/2) false ["T"] [] [["C"]] ["Cb1"] [] [] with
          | some (ca, cv) => ⟨true, [[], [], cv], [[], [], ca]⟩
          | none => ⟨false, [], []⟩) := rfl
    rw [step1, hts1, if_neg Bool.false_ne_true]
    have hloop : addLoop exDebateC3 "T" (1/2) false ["T"] [] [["C"]] ["Cb1"] [] [] =
        some (["C"], ["Cb1"]) := by
      simp only [addLoop, List.nil_append, List.cons_append, List.append_nil]
      rw [hts3]
      rfl
    rw [hloop]

/-! ## Missing-weight handling
(identify_branches.py `is_significant`, generate_branch_rankings.py
`determine_direction`, and the searches' `readFinal`) -/

/-- `is_significant(argument)`: `argument.get('final_weight', 0.0) != 0.0` —
a missing final weight silently defaults to 0.0, making the node
insignificant. -/
def is_significant (argument : NodeData) : Bool :=
  decide (argument.final_weight.getD 0 ≠ 0)

/-- `determine_direction(target_id, nodes)`: reads the target node
(`nodes.get(target_id, {})`) and its two weights, each silently defaulting to
0.0, then compares. -/
def determine_direction (target_id : String)
    (nodes : List (String × NodeData)) : String :=
  let initial_weight := ((nodes.lookup target_id).map NodeData.initial_weight).getD 0
  let final_weight :=
    ((nodes.lookup target_id).map (fun nd => nd.final_weight.getD 0)).getD 0
  if initial_weight < final_weight then "strengthening"
  else if final_weight < initial_weight then "weakening"
  else "unchanged"

/-- C6 counterexample: a node lacking its final weight raises no error
anywhere — significance treats it as weight 0.0, direction determination
compares against the 0.0 default and silently reports "weakening", and the
searches' read of a missing propagated weight substitutes the initial
weight. -/
theorem c6_missing_weight_counterexample :
    is_significant ⟨1, none⟩ = false ∧
    determine_direction "t" [("t", ⟨1, none⟩)] = "weakening" ∧
    readFinal [] "t" (3/4) = 3/4 :=
  ⟨rfl, rfl, rfl⟩

/-- C6 amended: missing weights are silently defaulted, never surfaced as an
error: `is_significant` treats an absent final weight as 0.0 (insignificant);
`determine_direction` compares the absent final weight as 0.0 (reporting
"weakening" for any positive initial weight); and the searches' read of the
target's propagated weight substitutes the initial weight when the key is
absent from the propagated mapping. -/
theorem c6_missing_weight_defaults (nd : NodeData) (t : String)
    (nodes : List (String × NodeData)) (m : List (String × ℚ)) (w0 : ℚ)
    (hnd : nd.final_weight = none) (hlk : nodes.lookup t = some nd)
    (hm : m.lookup t = none) :
    is_significant nd = false ∧
    (0 < nd.initial_weight → determine_direction t nodes = "weakening") ∧
    readFinal m t w0 = w0 := by
  refine ⟨?_, ?_, ?_⟩
  · rw [is_significant, hnd]
    simp
  · intro hpos
    rw [determine_direction, hlk]
    simp only [Option.map_some', Option.getD_some]
    simp only [hnd, Option.getD_none]
    rw [if_neg (lt_asymm hpos), if_pos hpos]
  · rw [readFinal, hm]
    rfl

/-- Witness for C6 at a concrete input: a node of initial weight 1 with no
final weight, and an empty propagated mapping. -/
theorem c6_missing_weight_defaults_witness :
    is_significant ⟨1, none⟩ = false ∧
    determine_direction "n" [("n", ⟨1, none⟩)] = "weakening" ∧
    readFinal [] "n" (2/3) = 2/3 :=
  ⟨(c6_missing_weight_defaults ⟨1, none⟩ "n" [("n", ⟨1, none⟩)] [] (2/3)
      rfl rfl rfl).1,
   (c6_missing_weight_defaults ⟨1, none⟩ "n" [("n", ⟨1, none⟩)] [] (2/3)
      rfl rfl rfl).2.1 (by norm_num),
   (c6_missing_weight_defaults ⟨1, none⟩ "n" [("n", ⟨1, none⟩)] [] (2/3)
      rfl rfl rfl).2.2⟩

/-! ## Branch extraction (identify_branches.py) -/

/-- `is_significant_root(arg_id)`: the id has a node entry which is
significant. -/
def is_significant_root (nodes : List (String × NodeData))
    (arg_id : String) : Bool :=
  match nodes.lookup arg_id with
  | none => false
  | some nd => is_significant nd

/-- The significant immediate supporters of the target: sources of edges into
the target with `relation > 0` whose node exists and is significant, in edge
order. -/
def significant_supporters (nodes : List (String × NodeData))
    (edges : List (String × EdgeData)) (target : String) : List String :=
  (edges.filter (fun p =>
    p.2.successor_id == target &&
      (match nodes.lookup p.1 with
       | none => false
       | some nd => is_significant nd) &&
      decide (0 < p.2.relation))).map Prod.fst

/-- The significant immediate attackers of the target (`relation < 0`). -/
def significant_attackers (nodes : List (String × NodeData))
    (edges : List (String × EdgeData)) (target : String) : List String :=
  (edges.filter (fun p =>
    p.2.successor_id == target &&
      (match nodes.lookup p.1 with
       | none => false
       | some nd => is_significant nd) &&
      decide (p.2.relation < 0))).map Prod.fst

/-- Fuel bound for the worklist traversals, generous enough for every queue
insertion the Python loops can perform. -/
def traversalFuel (edges : List (String × EdgeData)) : Nat :=
  (2 * edges.length + 2) * (edges.length + 2) + 1

/-- The BFS of `compute_path_sign_significant_only`: pop the queue, skip
visited nodes, return the accumulated sign at the target, otherwise enqueue
the successors over non-zero edges into existing significant nodes with the
sign multiplied by the relation sign. -/
def pathSignBfs (nodes : List (String × NodeData))
    (edges : List (String × EdgeData)) (target : String) :
    Nat → List (String × Int) → List String → Int
  | 0, _, _ => 0
  | _ + 1, [], _ => 0
  | fuel + 1, (current, sign) :: queue, visited =>
    if current ∈ visited then pathSignBfs nodes edges target fuel queue visited
    else
      if current = target then sign
      else
        let next := (edges.filter (fun p =>
          p.1 == current && p.2.successor_id != "" &&
            decide (p.2.relation ≠ (0 : ℚ)) &&
            (match nodes.lookup p.2.successor_id with
             | none => false
             | some nd => is_significant nd))).map
          (fun p => (p.2.successor_id, sign * (if 0 < p.2.relation then 1 else -1)))
        pathSignBfs nodes edges target fuel (queue ++ next) (current :: visited)

/-- `compute_path_sign_significant_only(arg_id, target_id)`: 1 at the target
itself, 0 when the start is absent or insignificant, else the BFS result. -/
def compute_path_sign_significant_only (nodes : List (String × NodeData))
    (edges : List (String × EdgeData)) (arg_id target_id : String) : Int :=
  if arg_id = target_id then 1
  else
    match nodes.lookup arg_id with
    | none => 0
    | some nd =>
      if is_significant nd then
        pathSignBfs nodes edges target_id (traversalFuel edges) [(arg_id, 1)] []
      else 0

/-- `is_pro_argument`: positive path sign to the target. -/
def is_pro_argument (nodes : List (String × NodeData))
    (edges : List (String × EdgeData)) (target arg_id : String) : Bool :=
  decide (0 < compute_path_sign_significant_only nodes edges arg_id target)

/-- `is_con_argument`: negative path sign to the target. -/
def is_con_argument (nodes : List (String × NodeData))
    (edges : List (String × EdgeData)) (target arg_id : String) : Bool :=
  decide (compute_path_sign_significant_only nodes edges arg_id target < 0)

/-- The backward neighbors pushed by the traversals: sources of non-zero
edges into `current`, in edge order. -/
def backEdgesInto (edges : List (String × EdgeData)) (current : String) :
    List String :=
  (edges.filter (fun p =>
    p.2.successor_id == current && decide (p.2.relation ≠ 0))).map Prod.fst

/-- The stack loop of `traverse_unweakened_branch` (the Python list-as-stack
pops from the end; the head of this list is the top, so pushed neighbors are
reversed). -/
def traverseUnweakenedAux (nodes : List (String × NodeData))
    (edges : List (String × EdgeData)) (target root_id : String)
    (expectedPro : Bool) :
    Nat → List String → List String → List String → List String
  | 0, _, _, branch => branch
  | _ + 1, [], _, branch => branch
  | fuel + 1, current :: stack, visited, branch =>
    if current ∈ visited then
      traverseUnweakenedAux nodes edges target root_id expectedPro fuel
        stack visited branch
    else
      if (if expectedPro then is_pro_argument nodes edges target current
          else is_con_argument nodes edges target current) then
        traverseUnweakenedAux nodes edges target root_id expectedPro fuel
          ((backEdgesInto edges current).reverse ++ stack) (current :: visited)
          (branch ++ [current])
      else if current = root_id then
        traverseUnweakenedAux nodes edges target root_id expectedPro fuel
          stack (current :: visited) (branch ++ [current])
      else
        traverseUnweakenedAux nodes edges target root_id expectedPro fuel
          stack (current :: visited) branch

/-- `traverse_unweakened_branch(root_id, expected_type)`. -/
def traverse_unweakened_branch (nodes : List (String × NodeData))
    (edges : List (String × EdgeData)) (target root_id : String)
    (expectedPro : Bool) : List String :=
  traverseUnweakenedAux nodes edges target root_id expectedPro
    (traversalFuel edges) [root_id] [] []

/-- The final `all_expected_type` filter of `find_unweakened_branches`. -/
def branchAllExpected (nodes : List (String × NodeData))
    (edges : List (String × EdgeData)) (target : String) (expectedPro : Bool)
    (branch : List String) : Bool :=
  branch.all (fun a =>
    if expectedPro then is_pro_argument nodes edges target a
    else is_con_argument nodes edges target a)

/-- `find_unweakened_branches(supporters_or_attackers, expected_type)`:
traverse from each significant root and keep the non-empty, polarity-pure
branches. -/
def find_unweakened_branches (nodes : List (String × NodeData))
    (edges : List (String × EdgeData)) (target : String)
    (roots : List String) (expectedPro : Bool) : List (List String) :=
  roots.foldl (fun acc root =>
    if is_significant_root nodes root then
      let branch := traverse_unweakened_branch nodes edges target root expectedPro
      if branch.length > 0 &&
          branchAllExpected nodes edges target expectedPro branch then
        acc ++ [branch]
      else acc
    else acc) []

/-- `unweakened_pro_branches` of `identify_branches(debate, target)`. -/
def unweakened_pro_branches (debate : Debate) (target : String) :
    List (List String) :=
  find_unweakened_branches debate.nodes debate.edges target
    (significant_supporters debate.nodes debate.edges target) true

/-- `unweakened_con_branches` of `identify_branches(debate, target)`. -/
def unweakened_con_branches (debate : Debate) (target : String) :
    List (List String) :=
  find_unweakened_branches debate.nodes debate.edges target
    (significant_attackers debate.nodes debate.edges target) false

theorem mem_find_unweakened (nodes : List (String × NodeData))
    (edges : List (String × EdgeData)) (target : String) (expectedPro : Bool) :
    ∀ (roots : List String) (acc : List (List String)) (b : List String),
      b ∈ roots.foldl (fun acc root =>
        if is_significant_root nodes root then
          let branch := traverse_unweakened_branch nodes edges target root expectedPro
          if branch.length > 0 &&
              branchAllExpected nodes edges target expectedPro branch then
            acc ++ [branch]
          else acc
        else acc) acc →
      b ∈ acc ∨ branchAllExpected nodes edges target expectedPro b = true := by
  intro roots
  induction roots with
  | nil => intro acc b hb; exact Or.inl hb
  | cons root roots ih =>
    intro acc b hb
    simp only [List.foldl_cons] at hb
    by_cases hsig : is_significant_root nodes root = true
    · rw [if_pos hsig] at hb
      by_cases hok : ((traverse_unweakened_branch nodes edges target root
            expectedPro).length > 0 &&
          branchAllExpected nodes edges target expectedPro
            (traverse_unweakened_branch nodes edges target root expectedPro)) = true
      · rw [if_pos hok] at hb
        rcases ih _ b hb with hacc | hP
        · rcases List.mem_append.mp hacc with h1 | h2
          · exact Or.inl h1
          · have hbeq : b = traverse_unweakened_branch nodes edges target root
                expectedPro := by simpa using h2
            right
            rw [hbeq]
            have hok2 := hok
            rw [Bool.and_eq_true] at hok2
            exact hok2.2
        · exact Or.inr hP
      · rw [if_neg hok] at hb
        exact ih _ b hb
    · rw [if_neg hsig] at hb
      exact ih _ b hb

/-- C9: mutual exclusivity of polarity-pure branches.  Every node of a
returned unweakened-pro branch has positive path sign and every node of a
returned unweakened-con branch has negative path sign for the same target, and
the path sign is a single value per node, so no node appears in both. -/
theorem c9_unweakened_mutual_exclusivity (debate : Debate) (target x : String)
    (hx : x ∈ (unweakened_pro_branches debate target).flatten) :
    x ∉ (unweakened_con_branches debate target).flatten := by
  intro hcon
  obtain ⟨b1, hb1, hxb1⟩ := List.mem_flatten.mp hx
  obtain ⟨b2, hb2, hxb2⟩ := List.mem_flatten.mp hcon
  have hp := mem_find_unweakened debate.nodes debate.edges target true _ [] b1 hb1
  have hc := mem_find_unweakened debate.nodes debate.edges target false _ [] b2 hb2
  rcases hp with hp | hp
  · exact absurd hp (by simp)
  rcases hc with hc | hc
  · exact absurd hc (by simp)
  have hpx := (List.all_eq_true.mp hp) x hxb1
  have hcx := (List.all_eq_true.mp hc) x hxb2
  simp only [if_true, if_false, decide_eq_true_eq] at hpx hcx
  have h1 : 0 < compute_path_sign_significant_only debate.nodes debate.edges
      x target := by simpa [is_pro_argument] using hpx
  have h2 : compute_path_sign_significant_only debate.nodes debate.edges
      x target < 0 := by simpa [is_con_argument] using hcx
  exact absurd h1 (not_lt_of_gt (by simpa using h2))

/-- Witness for C9 at a concrete input: `A` supports `T`, both significant;
`A` lies in an unweakened-pro branch and in no unweakened-con branch. -/
theorem c9_unweakened_mutual_exclusivity_witness :
    ("A" ∈ (unweakened_pro_branches
        ⟨[("T", ⟨1, some 1⟩), ("A", ⟨1, some 1⟩)], [("A", ⟨"T", 1⟩)]⟩
        "T").flatten) ∧
    ("A" ∉ (unweakened_con_branches
        ⟨[("T", ⟨1, some 1⟩), ("A", ⟨1, some 1⟩)], [("A", ⟨"T", 1⟩)]⟩
        "T").flatten) :=
  ⟨by decide,
   c9_unweakened_mutual_exclusivity
     ⟨[("T", ⟨1, some 1⟩), ("A", ⟨1, some 1⟩)], [("A", ⟨"T", 1⟩)]⟩
     "T" "A" (by decide)⟩

/-! ## C10: set-determinedness of restriction and propagation -/

theorem lookup_append_nd (l1 l2 : List (String × NodeData)) (k : String) :
    (l1 ++ l2).lookup k =
      match l1.lookup k with
      | some v => some v
      | none => l2.lookup k := by
  induction l1 with
  | nil => rfl
  | cons p t ih =>
    rcases p with ⟨a, v⟩
    cases hka : k == a
    · simp only [List.cons_append, List.lookup, hka]
      exact ih
    · simp only [List.cons_append, List.lookup, hka]

theorem head_lookup_ne_none (a : String) (v : NodeData)
    (t : List (String × NodeData)) : ((a, v) :: t).lookup a ≠ none := by
  simp [List.lookup]

theorem isEmpty_eq_of_lookup_eq (l1 l2 : List (String × NodeData))
    (hl : ∀ k, l1.lookup k = l2.lookup k) : l1.isEmpty = l2.isEmpty := by
  cases l1 with
  | nil =>
    cases l2 with
    | nil => rfl
    | cons q u =>
      rcases q with ⟨a, v⟩
      have := hl a
      rw [List.lookup_nil] at this
      exact absurd this.symm (head_lookup_ne_none a v u)
  | cons p t =>
    cases l2 with
    | nil =>
      rcases p with ⟨a, v⟩
      have := hl a
      rw [List.lookup_nil] at this
      exact absurd this (head_lookup_ne_none a v t)
    | cons q u => rfl

theorem restrictNodes_fold_lookup (d : Debate) (k : String) :
    ∀ (s : List String) (acc : List (String × NodeData)),
      (acc.lookup k = none ∨ acc.lookup k = d.nodes.lookup k) →
      (s.foldl (fun acc a =>
        match d.nodes.lookup a with
        | none => acc
        | some nd => if (acc.lookup a).isSome then acc else acc ++ [(a, nd)]) acc).lookup k =
        (if k ∈ s ∧ (d.nodes.lookup k).isSome then d.nodes.lookup k
         else acc.lookup k) := by
  intro s
  induction s with
  | nil =>
    intro acc hacc
    simp
  | cons a s ih =>
    intro acc hacc
    rw [List.foldl_cons]
    cases hla : d.nodes.lookup a with
    | none =>
      dsimp only
      rw [ih acc hacc]
      by_cases hk : k ∈ s ∧ (d.nodes.lookup k).isSome
      · rw [if_pos hk, if_pos ⟨List.mem_cons_of_mem a hk.1, hk.2⟩]
      · rw [if_neg hk, if_neg ?_]
        rintro ⟨hmem, hsome⟩
        rcases List.mem_cons.mp hmem with h1 | h2
        · rw [h1, hla] at hsome
          exact absurd hsome (by simp)
        · exact hk ⟨h2, hsome⟩
    | some nd =>
      dsimp only
      cases hsa : (acc.lookup a).isSome with
      | true =>
        rw [if_pos rfl]
        rw [ih acc hacc]
        by_cases hk : k ∈ s ∧ (d.nodes.lookup k).isSome
        · rw [if_pos hk, if_pos ⟨List.mem_cons_of_mem a hk.1, hk.2⟩]
        · rw [if_neg hk]
          by_cases hk2 : k ∈ a :: s ∧ (d.nodes.lookup k).isSome
          · rw [if_pos hk2]
            have hka : k = a := by
              rcases List.mem_cons.mp hk2.1 with h1 | h2
              · exact h1
              · exact absurd ⟨h2, hk2.2⟩ hk
            rcases hacc with h0 | h1
            · rw [hka] at h0
              rw [h0] at hsa
              exact absurd hsa (by simp)
            · exact h1
          · rw [if_neg hk2]
      | false =>
        rw [if_neg Bool.false_ne_true]
        have hacc' : (acc ++ [(a, nd)]).lookup k = none ∨
            (acc ++ [(a, nd)]).lookup k = d.nodes.lookup k := by
          rw [lookup_append_nd]
          cases hal : acc.lookup k with
          | some v =>
            dsimp only
            rcases hacc with h0 | h1
            · rw [hal] at h0; exact absurd h0 (by simp)
            · rw [hal] at h1; exact Or.inr h1
          | none =>
            dsimp only
            cases hka : k == a with
            | true =>
              have hkeq : k = a := by simpa using hka
              right
              rw [hkeq, hla]
              simp [List.lookup]
            | false =>
              left
              simp [List.lookup, hka]
        rw [ih (acc ++ [(a, nd)]) hacc']
        by_cases hk : k ∈ s ∧ (d.nodes.lookup k).isSome
        · rw [if_pos hk, if_pos ⟨List.mem_cons_of_mem a hk.1, hk.2⟩]
        · rw [if_neg hk]
          by_cases hk2 : k ∈ a :: s ∧ (d.nodes.lookup k).isSome
          · rw [if_pos hk2]
            have hka : k = a := by
              rcases List.mem_cons.mp hk2.1 with h1 | h2
              · exact h1
              · exact absurd ⟨h2, hk2.2⟩ hk
            rw [lookup_append_nd]
            have hal : acc.lookup k = none := by
              rw [hka]
              exact Option.not_isSome_iff_eq_none.mp (by rw [hsa]; exact Bool.false_ne_true)
            rw [hal]
            dsimp only
            rw [hka, hla]
            simp [List.lookup]
          · rw [if_neg hk2]
            have hka : ¬(k = a) := by
              intro hkeq
              exact hk2 ⟨by rw [hkeq]; exact List.mem_cons_self a s,
                by rw [hkeq, hla]; simp⟩
            rw [lookup_append_nd]
            cases hal : acc.lookup k with
            | some v => rfl
            | none =>
              dsimp only
              have hkb : (k == a) = false := by simpa using hka
              simp [List.lookup, hkb]

theorem restrictNodes_lookup (d : Debate) (s : List String) (k : String) :
    (restrictNodes d s).lookup k =
      (if k ∈ s ∧ (d.nodes.lookup k).isSome then d.nodes.lookup k else none) := by
  rw [restrictNodes]
  rw [restrictNodes_fold_lookup d k s [] (Or.inl rfl)]
  simp only [List.lookup_nil]

/-- C10 counterexample: on the 2-cycle `A attacks B attacks A`, the subsets
`[A, B]` and `[B, A]` have the same underlying set, yet the fallback order of
`apply_qem_to_restriction` makes the final weight of `B` come out as `2/5` for
the first and `1/2` for the second: the result is not set-determined. -/
theorem c10_subset_order_counterexample :
    (∀ x : String, x ∈ ["A", "B"] ↔ x ∈ ["B", "A"]) ∧
    (apply_qem_to_restriction (create_restriction
        ⟨[("A", ⟨1/2, none⟩), ("B", ⟨1/2, none⟩)],
         [("A", ⟨"B", -1⟩), ("B", ⟨"A", -1⟩)]⟩ ["A", "B"])).lookup "B" =
      some (2/5) ∧
    (apply_qem_to_restriction (create_restriction
        ⟨[("A", ⟨1/2, none⟩), ("B", ⟨1/2, none⟩)],
         [("A", ⟨"B", -1⟩), ("B", ⟨"A", -1⟩)]⟩ ["B", "A"])).lookup "B" =
      some (1/2) := by
  refine ⟨fun x => by constructor <;> (intro hx; simp at hx ⊢; tauto), ?_, ?_⟩
  · have hcr : create_restriction
        ⟨[("A", ⟨1/2, none⟩), ("B", ⟨1/2, none⟩)],
         [("A", ⟨"B", -1⟩), ("B", ⟨"A", -1⟩)]⟩ ["A", "B"] =
        ⟨[("A", ⟨1/2, none⟩), ("B", ⟨1/2, none⟩)],
         [("A", ⟨"B", -1⟩), ("B", ⟨"A", -1⟩)]⟩ := rfl
    rw [hcr]
    have ht : topoSort [("A", ⟨"B", -1⟩), ("B", ⟨"A", -1⟩)] = none := by decide
    rw [apply_qem_to_restriction, if_neg (by decide), if_neg (by decide)]
    rw [ht]
    dsimp only
    simp only [List.map_cons, List.map_nil]
    have hsA : supOf [("A", ⟨"B", -1⟩), ("B", ⟨"A", -1⟩)] "A" = [] := by decide
    have haA : attOf [("A", ⟨"B", -1⟩), ("B", ⟨"A", -1⟩)] "A" = ["B"] := by decide
    have hsB : supOf [("A", ⟨"B", -1⟩), ("B", ⟨"A", -1⟩)] "B" = [] := by decide
    have haB : attOf [("A", ⟨"B", -1⟩), ("B", ⟨"A", -1⟩)] "B" = ["A"] := by decide
    have heA : calculate_energy "A" (supOf [("A", ⟨"B", -1⟩), ("B", ⟨"A", -1⟩)])
        (attOf [("A", ⟨"B", -1⟩), ("B", ⟨"A", -1⟩)]) [] = 0 := by
      rw [calculate_energy, hsA, haA]
      simp [List.lookup]
    have qA : qem_accept "A" (supOf [("A", ⟨"B", -1⟩), ("B", ⟨"A", -1⟩)])
        (attOf [("A", ⟨"B", -1⟩), ("B", ⟨"A", -1⟩)]) []
        (wInitOf [("A", ⟨1/2, none⟩), ("B", ⟨1/2, none⟩)]) = 1/2 := by
      rw [qem_accept, if_neg (by simp [haA])]
      simp only [heA]
      have hw : wInitOf [("A", ⟨1/2, none⟩), ("B", ⟨1/2, none⟩)] "A" = 1/2 := rfl
      rw [hw, if_neg (by norm_num)]
      rw [h]
      norm_num
    have heB : calculate_energy "B" (supOf [("A", ⟨"B", -1⟩), ("B", ⟨"A", -1⟩)])
        (attOf [("A", ⟨"B", -1⟩), ("B", ⟨"A", -1⟩)]) [("A", 1/2)] = -(1/2) := by
      rw [calculate_energy, hsB, haB]
      simp [List.lookup]
    have qB : qem_accept "B" (supOf [("A", ⟨"B", -1⟩), ("B", ⟨"A", -1⟩)])
        (attOf [("A", ⟨"B", -1⟩), ("B", ⟨"A", -1⟩)]) [("A", 1/2)]
        (wInitOf [("A", ⟨1/2, none⟩), ("B", ⟨1/2, none⟩)]) = 2/5 := by
      rw [qem_accept, if_neg (by simp [haB])]
      simp only [heB]
      have hw : wInitOf [("A", ⟨1/2, none⟩), ("B", ⟨1/2, none⟩)] "B" = 1/2 := rfl
      rw [hw, if_neg (by norm_num)]
      rw [h]
      norm_num
    rw [qemFold]
    simp only [List.foldl_cons, List.foldl_nil, List.nil_append]
    rw [qA]
    simp only [List.singleton_append, List.cons_append, List.nil_append]
    rw [qB]
    simp [List.lookup]
  · have hcr : create_restriction
        ⟨[("A", ⟨1/2, none⟩), ("B", ⟨1/2, none⟩)],
         [("A", ⟨"B", -1⟩), ("B", ⟨"A", -1⟩)]⟩ ["B", "A"] =
        ⟨[("B", ⟨1/2, none⟩), ("A", ⟨1/2, none⟩)],
         [("A", ⟨"B", -1⟩), ("B", ⟨"A", -1⟩)]⟩ := rfl
    rw [hcr]
    have ht : topoSort [("A", ⟨"B", -1⟩), ("B", ⟨"A", -1⟩)] = none := by decide
    rw [apply_qem_to_restriction, if_neg (by decide), if_neg (by decide)]
    rw [ht]
    dsimp only
    simp only [List.map_cons, List.map_nil]
    have hsA : supOf [("A", ⟨"B", -1⟩), ("B", ⟨"A", -1⟩)] "A" = [] := by decide
    have haA : attOf [("A", ⟨"B", -1⟩), ("B", ⟨"A", -1⟩)] "A" = ["B"] := by decide
    have hsB : supOf [("A", ⟨"B", -1⟩), ("B", ⟨"A", -1⟩)] "B" = [] := by decide
    have haB : attOf [("A", ⟨"B", -1⟩), ("B", ⟨"A", -1⟩)] "B" = ["A"] := by decide
    have heB : calculate_energy "B" (supOf [("A", ⟨"B", -1⟩), ("B", ⟨"A", -1⟩)])
        (attOf [("A", ⟨"B", -1⟩), ("B", ⟨"A", -1⟩)]) [] = 0 := by
      rw [calculate_energy, hsB, haB]
      simp [List.lookup]
    have qB : qem_accept "B" (supOf [("A", ⟨"B", -1⟩), ("B", ⟨"A", -1⟩)])
        (attOf [("A", ⟨"B", -1⟩), ("B", ⟨"A", -1⟩)]) []
        (wInitOf [("B", ⟨1/2, none⟩), ("A", ⟨1/2, none⟩)]) = 1/2 := by
      rw [qem_accept, if_neg (by simp [haB])]
      simp only [heB]
      have hw : wInitOf [("B", ⟨1/2, none⟩), ("A", ⟨1/2, none⟩)] "B" = 1/2 := rfl
      rw [hw, if_neg (by norm_num)]
      rw [h]
      norm_num
    have heA : calculate_energy "A" (supOf [("A", ⟨"B", -1⟩), ("B", ⟨"A", -1⟩)])
        (attOf [("A", ⟨"B", -1⟩), ("B", ⟨"A", -1⟩)]) [("B", 1/2)] = -(1/2) := by
      rw [calculate_energy, hsA, haA]
      simp [List.lookup]
    have qA : qem_accept "A" (supOf [("A", ⟨"B", -1⟩), ("B", ⟨"A", -1⟩)])
        (attOf [("A", ⟨"B", -1⟩), ("B", ⟨"A", -1⟩)]) [("B", 1/2)]
        (wInitOf [("B", ⟨1/2, none⟩), ("A", ⟨1/2, none⟩)]) = 2/5 := by
      rw [qem_accept, if_neg (by simp [haA])]
      simp only [heA]
      have hw : wInitOf [("B", ⟨1/2, none⟩), ("A", ⟨1/2, none⟩)] "A" = 1/2 := rfl
      rw [hw, if_neg (by norm_num)]
      rw [h]
      norm_num
    rw [qemFold]
    simp only [List.foldl_cons, List.foldl_nil, List.nil_append]
    rw [qB]
    simp only [List.singleton_append, List.cons_append, List.nil_append]
    rw [qA]
    simp [List.lookup]

/-- C10 amended: the restriction is set-determined up to dictionary order —
two subsets with the same underlying set yield literally equal restricted
edges and pointwise-equal restricted node mappings — and the propagated
final weights coincide whenever the restricted edge set is non-empty and
acyclic (the topological order then depends on the edges alone); with an
empty or cyclic restricted edge set the result instead follows the
order-dependent node insertion order. -/
theorem c10_restriction_set_determined (d : Debate) (s1 s2 : List String)
    (k : String) (hset : ∀ x : String, x ∈ s1 ↔ x ∈ s2) :
    (create_restriction d s1).edges = (create_restriction d s2).edges ∧
    (create_restriction d s1).nodes.lookup k =
      (create_restriction d s2).nodes.lookup k ∧
    ((create_restriction d s1).edges ≠ [] →
      (topoSort (create_restriction d s1).edges).isSome = true →
      apply_qem_to_restriction (create_restriction d s1) =
        apply_qem_to_restriction (create_restriction d s2)) := by
  by_cases hs1 : s1 = []
  · have hs2 : s2 = [] := by
      rw [List.eq_nil_iff_forall_not_mem]
      intro x hx
      have hx1 := (hset x).mpr hx
      rw [hs1] at hx1
      exact absurd hx1 (List.not_mem_nil x)
    subst hs1
    subst hs2
    exact ⟨rfl, rfl, fun hne _ => absurd rfl hne⟩
  · have hs2 : s2 ≠ [] := by
      intro hs2e
      rcases List.exists_mem_of_ne_nil s1 hs1 with ⟨x, hx⟩
      have hx2 := (hset x).mp hx
      rw [hs2e] at hx2
      exact absurd hx2 (List.not_mem_nil x)
    have hs1i : ¬(s1.isEmpty = true) := by simpa [List.isEmpty_iff] using hs1
    have hs2i : ¬(s2.isEmpty = true) := by simpa [List.isEmpty_iff] using hs2
    have hcont : ∀ a : String, s1.contains a = s2.contains a := by
      intro a
      rw [Bool.eq_iff_iff]
      have h1 : s1.contains a = true ↔ a ∈ s1 := List.elem_iff
      have h2 : s2.contains a = true ↔ a ∈ s2 := List.elem_iff
      rw [h1, h2]
      exact hset a
    have hedges :
        d.edges.filter (fun p => s1.contains p.1 && s1.contains p.2.successor_id) =
        d.edges.filter (fun p => s2.contains p.1 && s2.contains p.2.successor_id) := by
      refine List.filter_congr ?_
      intro p _
      rw [hcont p.1, hcont p.2.successor_id]
    have hc1 : create_restriction d s1 =
        ⟨restrictNodes d s1,
         d.edges.filter (fun p => s1.contains p.1 && s1.contains p.2.successor_id)⟩ := by
      rw [create_restriction, if_neg hs1i]
    have hc2 : create_restriction d s2 =
        ⟨restrictNodes d s2,
         d.edges.filter (fun p => s2.contains p.1 && s2.contains p.2.successor_id)⟩ := by
      rw [create_restriction, if_neg hs2i]
    have hnode : ∀ k' : String,
        (restrictNodes d s1).lookup k' = (restrictNodes d s2).lookup k' := by
      intro k'
      rw [restrictNodes_lookup, restrictNodes_lookup]
      by_cases hk : k' ∈ s1 ∧ (d.nodes.lookup k').isSome
      · rw [if_pos hk, if_pos ⟨(hset k').mp hk.1, hk.2⟩]
      · rw [if_neg hk, if_neg (fun hc => hk ⟨(hset k').mpr hc.1, hc.2⟩)]
    refine ⟨?_, ?_, ?_⟩
    · rw [hc1, hc2]
      exact hedges
    · rw [hc1, hc2]
      exact hnode k
    · intro hne hsome
      rw [hc1] at hne hsome ⊢
      rw [hc2]
      dsimp only at hne hsome ⊢
      rw [hedges] at hne hsome ⊢
      have hw : wInitOf (restrictNodes d s1) = wInitOf (restrictNodes d s2) := by
        funext n
        rw [wInitOf, wInitOf, hnode n]
      have hie : (restrictNodes d s1).isEmpty = (restrictNodes d s2).isEmpty :=
        isEmpty_eq_of_lookup_eq _ _ hnode
      obtain ⟨l, hl⟩ := Option.isSome_iff_exists.mp hsome
      rw [apply_qem_to_restriction, apply_qem_to_restriction]
      dsimp only
      rw [hw, hl]
      dsimp only
      cases hn1 : (restrictNodes d s1).isEmpty with
      | true =>
        rw [if_pos rfl, if_pos (hie ▸ hn1)]
      | false =>
        have hfe : ¬((d.edges.filter (fun p =>
            s2.contains p.1 && s2.contains p.2.successor_id)).isEmpty = true) :=
          fun hX => hne (List.isEmpty_iff.mp hX)
        have hn2 : ¬((restrictNodes d s2).isEmpty = true) := by
          rw [← hie, hn1]
          exact Bool.false_ne_true
        rw [if_neg Bool.false_ne_true]
        rw [if_neg hfe]
        rw [if_neg hn2]
        rw [if_neg hfe]

/-- Witness for C10 at concrete inputs: the subsets `[X, Y]` and `[Y, X, X]`
of a two-node debate with the single edge `X supports Y` have the same
underlying set. -/
theorem c10_restriction_set_determined_witness :
    (create_restriction ⟨[("X", ⟨1/2, none⟩), ("Y", ⟨1/2, none⟩)],
        [("X", ⟨"Y", 1⟩)]⟩ ["X", "Y"]).edges =
      (create_restriction ⟨[("X", ⟨1/2, none⟩), ("Y", ⟨1/2, none⟩)],
        [("X", ⟨"Y", 1⟩)]⟩ ["Y", "X", "X"]).edges ∧
    (create_restriction ⟨[("X", ⟨1/2, none⟩), ("Y", ⟨1/2, none⟩)],
        [("X", ⟨"Y", 1⟩)]⟩ ["X", "Y"]).nodes.lookup "Y" =
      (create_restriction ⟨[("X", ⟨1/2, none⟩), ("Y", ⟨1/2, none⟩)],
        [("X", ⟨"Y", 1⟩)]⟩ ["Y", "X", "X"]).nodes.lookup "Y" ∧
    ((create_restriction ⟨[("X", ⟨1/2, none⟩), ("Y", ⟨1/2, none⟩)],
        [("X", ⟨"Y", 1⟩)]⟩ ["X", "Y"]).edges ≠ [] →
      (topoSort (create_restriction ⟨[("X", ⟨1/2, none⟩), ("Y", ⟨1/2, none⟩)],
        [("X", ⟨"Y", 1⟩)]⟩ ["X", "Y"]).edges).isSome = true →
      apply_qem_to_restriction (create_restriction
        ⟨[("X", ⟨1/2, none⟩), ("Y", ⟨1/2, none⟩)], [("X", ⟨"Y", 1⟩)]⟩ ["X", "Y"]) =
        apply_qem_to_restriction (create_restriction
        ⟨[("X", ⟨1/2, none⟩), ("Y", ⟨1/2, none⟩)], [("X", ⟨"Y", 1⟩)]⟩ ["Y", "X", "X"])) :=
  c10_restriction_set_determined
    ⟨[("X", ⟨1/2, none⟩), ("Y", ⟨1/2, none⟩)], [("X", ⟨"Y", 1⟩)]⟩
    ["X", "Y"] ["Y", "X", "X"] "Y"
    (fun x => by constructor <;> (intro hx; simp at hx ⊢; tauto))
